import Mathlib

/-!
# Chart axis of OSM (`src/chart/axis.cpp`)

A shallow embedding of `Fftchart::Axis`: the range setters `setMin` / `setMax`,
`configure`, the scale transforms `convert` / `reverse`, the cursor read-out
`coordToValue`, the tick generator `autoLabels`, and the render pass `paint`.

Conventions of the embedding.

* A C++ `float` is an element of a linearly ordered field `F` (exact arithmetic, no
  rounding, no NaN or infinities). The definitions are polymorphic in `F`, so they
  evaluate over `ℚ` and are reasoned about over `ℝ`.
* The functions of `<cmath>` that have no meaning in a bare field (`log`, `pow`, the
  constant `M_E`) are arguments of the definitions that call them; the theorems
  instantiate them with `Real.log`, `Real.rpow` and `Real.exp 1`.
* An `unsigned int` is a `Nat` below `2 ^ 32`; arithmetic on it wraps modulo `2 ^ 32`.
* A C++ loop is a recursive function with a fuel argument; it returns `none` when the
  fuel runs out before the loop condition fails.
* A thrown `std::invalid_argument` is the `error` case of `Except`.
* An `int` of the render pass is an unbounded integer; `QPoint` and `QRect` follow the Qt
  library. `paint` returns the list of draw commands it issues.
* `needUpdate()` only schedules a repaint in the owning framework; it changes no field
  of the axis and is not represented.
-/

set_option linter.unusedVariables false

namespace Fftchart

/-- Scale family of an axis (`AxisType` of axis.h). -/
inductive AxisType where
  | linear
  | logarithmic
  deriving DecidableEq, Repr

/-- Orientation of an axis (`AxisDirection` of axis.h). -/
inductive AxisDirection where
  | vertical
  | horizontal
  deriving DecidableEq, Repr

/-- The exception `convert` throws: `std::invalid_argument`. -/
inductive Exception where
  | invalid_argument
  deriving DecidableEq, Repr

/-- Insets of the drawable area (`padding` of the painted item). -/
structure Padding (F : Type) where
  left : F
  right : F
  top : F
  bottom : F

/-- The fields of `Fftchart::Axis` that axis.cpp reads or writes. -/
structure Axis (F : Type) where
  _type : AxisType
  _direction : AxisDirection
  _min : F
  _max : F
  _scale : F
  _lowLimit : F
  _highLimit : F
  _labels : List F
  padding : Padding F
  width : F
  height : F

variable {F : Type} [LinearOrderedField F]

/-- The `std::max(a, b)` of the standard library: `(a < b) ? b : a`. -/
def std_max (a b : F) : F := if a < b then b else a

/-- The `std::min(a, b)` of the standard library: `(b < a) ? b : a`. -/
def std_min (a b : F) : F := if b < a then b else a

/-- Number of values of an `unsigned int`. -/
def UINT_RANGE : Nat := 4294967296

/-- Reduction of a natural number to an `unsigned int`. -/
def toUInt (n : Nat) : Nat := n % UINT_RANGE

/-- `Axis::setMin`: `_min = std::max(_lowLimit, std::min(v, _max))`. -/
def Axis.setMin (a : Axis F) (v : F) : Axis F :=
  { a with _min := std_max a._lowLimit (std_min v a._max) }

/-- `Axis::setMax`: `_max = std::min(_highLimit, std::max(v, _min))`. -/
def Axis.setMax (a : Axis F) (v : F) : Axis F :=
  { a with _max := std_min a._highLimit (std_max v a._min) }

/-- Modelled from the spec: `setType` is declared in axis.h, which is not among the
sources; the spec says `configure` "sets scale type". -/
def Axis.setType (a : Axis F) (t : AxisType) : Axis F :=
  { a with _type := t }

/-- Modelled from the spec: `setScale` is declared in axis.h, which is not among the
sources; the spec says `configure` "sets unit scale". -/
def Axis.setScale (a : Axis F) (s : F) : Axis F :=
  { a with _scale := s }

/-- The loop of the symmetric branch of `Axis::autoLabels`:
`for (unsigned int i = 0; i < ticks / 2; i++) { l += step; push l; push -1 * l; }`
with `bound = ticks / 2`. -/
def symmetricLoop (bound : Nat) (step : F) : Nat → Nat → F → List F → Option (List F)
  | 0, _, _, _ => none
  | fuel + 1, i, l, labels =>
    if i < bound then
      symmetricLoop bound step fuel (toUInt (i + 1)) (l + step)
        (labels ++ [l + step, -1 * (l + step)])
    else
      some labels

/-- The loop of the uniform branch of `Axis::autoLabels`:
`for (unsigned int i = 0; i <= ticks; i++) { push l; l += step; }`. -/
def uniformLoop (ticks : Nat) (step : F) : Nat → Nat → F → List F → Option (List F)
  | 0, _, _, _ => none
  | fuel + 1, i, l, labels =>
    if i ≤ ticks then
      uniformLoop ticks step fuel (toUInt (i + 1)) (l + step) (labels ++ [l])
    else
      some labels

/-- `Axis::autoLabels(ticks)`, run with the given fuel: the list `_labels` is cleared and
refilled, symmetrically around zero when `|_min + _max| < max(|_min|, |_max|)` and from
`_min` upwards in equal steps otherwise. -/
def Axis.autoLabels (a : Axis F) (fuel ticks : Nat) : Option (Axis F) :=
  if |a._min + a._max| < std_max |a._min| |a._max| then
    let ticks1 := toUInt (ticks + (UINT_RANGE - 1))
    let step := 2 * std_max |a._min| |a._max| / (ticks1 : F)
    (symmetricLoop (ticks1 / 2) step fuel 0 0 [0]).map fun ls => { a with _labels := ls }
  else
    let step := |a._max - a._min| / (ticks : F)
    (uniformLoop ticks step fuel 0 a._min []).map fun ls => { a with _labels := ls }

/-- The statements of `Axis::configure` that precede the call of `autoLabels`:
`setType(type); _lowLimit = min; _highLimit = max; setMin(min); setMax(max);
setScale(scale);`. -/
def Axis.configureRange (a : Axis F) (type : AxisType) (min max scale : F) : Axis F :=
  let a1 := a.setType type
  let a2 := { a1 with _lowLimit := min }
  let a3 := { a2 with _highLimit := max }
  let a4 := a3.setMin min
  let a5 := a4.setMax max
  a5.setScale scale

/-- `Axis::configure(type, min, max, ticks, scale)`, run with the given fuel. -/
def Axis.configure (a : Axis F) (fuel : Nat) (type : AxisType) (min max : F)
    (ticks : Nat) (scale : F) : Option (Axis F) :=
  let a6 := a.configureRange type min max scale
  if type = AxisType.linear then a6.autoLabels fuel ticks else some a6

/-- `Axis::convert(value, size)`: value to coordinate along an axis of `size` pixels. -/
def Axis.convert (a : Axis F) (log : F → F) (value size : F) : Except Exception F :=
  if a._type = AxisType.logarithmic then
    if value = 0 then
      Except.error Exception.invalid_argument
    else
      Except.ok (size * (log value - log a._min) / log (a._max / a._min))
  else
    Except.ok (size * (value - a._min) / (a._max - a._min))

/-- `Axis::reverse(value, size)`: coordinate to value along an axis of `size` pixels. -/
def Axis.reverse (a : Axis F) (log : F → F) (pow : F → F → F) (M_E : F)
    (value size : F) : F :=
  if a._type = AxisType.logarithmic then
    pow M_E (log a._min + value * log (a._max / a._min) / size)
  else
    value * (a._max - a._min) / size + a._min

/-- The preset `Axis::ISO_LABELS`. -/
def ISO_LABELS : List F := [31.5, 63, 125, 250, 500, 1000, 2000, 4000, 8000, 16000]

/-- Modelled from the spec: `pwidth()` belongs to the painted item, whose source is not
among the sources; the spec says the axis length is the "pixel width (Horizontal) … of the
drawable area (total extent minus padding on both ends)". -/
def Axis.pwidth (a : Axis F) : F := a.width - a.padding.left - a.padding.right

/-- Modelled from the spec: `pheight()` belongs to the painted item, whose source is not
among the sources; the spec says the axis length is the "pixel … height (Vertical) of the
drawable area (total extent minus padding on both ends)". -/
def Axis.pheight (a : Axis F) : F := a.height - a.padding.top - a.padding.bottom

/-- The `size` of `paint` and `coordToValue`:
`_direction == horizontal ? pwidth() : pheight()`. -/
def Axis.size (a : Axis F) : F :=
  if a._direction = AxisDirection.horizontal then a.pwidth else a.pheight

/-- `Axis::coordToValue(coord)`: screen coordinate to displayed value. -/
def Axis.coordToValue (a : Axis F) (log : F → F) (pow : F → F → F) (M_E : F)
    (coord : F) : F :=
  let size := a.size
  let coord1 := if a._direction = AxisDirection.horizontal then coord - a.padding.left
    else a.height - coord - a.padding.bottom
  a.reverse log pow M_E coord1 size * a._scale

/-- `static_cast<int>` of a `float`: the fractional part is discarded (rounding towards
zero). The `int` is taken unbounded. -/
def toInt [FloorRing F] (x : F) : Int := if 0 ≤ x then ⌊x⌋ else ⌈x⌉

/-- Qt's `QPoint`. -/
structure QPoint where
  x : Int
  y : Int
  deriving DecidableEq, Repr

/-- Qt's `QRect`, by the corner coordinates it stores. -/
structure QRect where
  x1 : Int
  y1 : Int
  x2 : Int
  y2 : Int
  deriving DecidableEq, Repr

/-- `QRect(left, top, width, height)`. -/
def QRect.ofSize (left top width height : Int) : QRect :=
  { x1 := left, y1 := top, x2 := left + width - 1, y2 := top + height - 1 }

/-- `QRect()`, the null rectangle. -/
def QRect.null : QRect := { x1 := 0, y1 := 0, x2 := -1, y2 := -1 }

/-- `QRect::width()`. -/
def QRect.width (r : QRect) : Int := r.x2 - r.x1 + 1

/-- `QRect::height()`. -/
def QRect.height (r : QRect) : Int := r.y2 - r.y1 + 1

/-- `QRect::isNull()`. -/
def QRect.isNull (r : QRect) : Bool := r.x2 == r.x1 - 1 && r.y2 == r.y1 - 1

/-- `QRect::isEmpty()`. -/
def QRect.isEmpty (r : QRect) : Bool := decide (r.x1 > r.x2) || decide (r.y1 > r.y2)

/-- `QRect::moveTo(x, y)`: the top left corner moves, the size stays. -/
def QRect.moveTo (r : QRect) (x y : Int) : QRect :=
  { x1 := x, y1 := y, x2 := r.x2 + (x - r.x1), y2 := r.y2 + (y - r.y1) }

/-- `QRect::contains(point)`, edges included. -/
def QRect.contains (r : QRect) (p : QPoint) : Bool :=
  let l := if r.x2 < r.x1 - 1 then r.x2 else r.x1
  let rr := if r.x2 < r.x1 - 1 then r.x1 else r.x2
  if p.x < l ∨ p.x > rr then false
  else
    let t := if r.y2 < r.y1 - 1 then r.y2 else r.y1
    let b := if r.y2 < r.y1 - 1 then r.y1 else r.y2
    if p.y < t ∨ p.y > b then false else true

/-- `QRect::intersects(other)`. -/
def QRect.intersects (r s : QRect) : Bool :=
  if r.isNull || s.isNull then false
  else
    let l1 := if r.x2 - r.x1 + 1 < 0 then r.x2 else r.x1
    let r1 := if r.x2 - r.x1 + 1 < 0 then r.x1 else r.x2
    let l2 := if s.x2 - s.x1 + 1 < 0 then s.x2 else s.x1
    let r2 := if s.x2 - s.x1 + 1 < 0 then s.x1 else s.x2
    if l1 > r2 ∨ l2 > r1 then false
    else
      let t1 := if r.y2 - r.y1 + 1 < 0 then r.y2 else r.y1
      let b1 := if r.y2 - r.y1 + 1 < 0 then r.y1 else r.y2
      let t2 := if s.y2 - s.y1 + 1 < 0 then s.y2 else s.y1
      let b2 := if s.y2 - s.y1 + 1 < 0 then s.y1 else s.y2
      if t1 > b2 ∨ t2 > b1 then false else true

/-- What `paint` asks the painter to draw: `drawLine(p1, p2)` and
`drawText(textRect, alignFlag, format(value))`. The text is kept as the number that is
formatted; pens and alignment flags, which depend on the direction only, are left out. -/
inductive DrawCommand (F : Type) where
  | drawLine (p1 p2 : QPoint)
  | drawText (rect : QRect) (value : F)
  deriving DecidableEq

/-- The variables of `paint` that live across the iterations of its loop, and the commands
issued so far. -/
structure PaintState (F : Type) where
  textRect : QRect
  lastTextRect : QRect
  out : List (DrawCommand F)

/-- The rectangle `limit` of `paint`. -/
def Axis.limit [FloorRing F] (a : Axis F) : QRect :=
  QRect.ofSize (toInt a.padding.left) (toInt a.padding.top)
    (toInt (a.width - a.padding.left - a.padding.right) + 1)
    (toInt (a.height - a.padding.top - a.padding.bottom) + 1)

/-- The end `p1` of the grid line of a tick with coordinate `t`. -/
def Axis.p1 [FloorRing F] (a : Axis F) (t : F) : QPoint :=
  { x := toInt (if a._direction = AxisDirection.horizontal then t + a.padding.left
      else a.padding.left),
    y := toInt (if a._direction = AxisDirection.horizontal then a.height - a.padding.bottom
      else a.height - a.padding.bottom - t) }

/-- The end `p2` of the grid line of a tick with coordinate `t`. -/
def Axis.p2 [FloorRing F] (a : Axis F) (t : F) : QPoint :=
  { x := toInt (if a._direction = AxisDirection.horizontal then t + a.padding.left
      else a.width - a.padding.right),
    y := toInt (if a._direction = AxisDirection.horizontal then a.padding.top
      else a.height - a.padding.bottom - t) }

/-- The `textRect.moveTo(…)` of `paint`: the label rectangle is placed at the end `p1`. -/
def Axis.moveTextRect (a : Axis F) (textRect : QRect) (p1 : QPoint) : QRect :=
  textRect.moveTo
    (p1.x - (if a._direction = AxisDirection.horizontal then Int.tdiv textRect.width 2
      else textRect.width + 5))
    (p1.y - (if a._direction = AxisDirection.horizontal then 0
      else Int.tdiv textRect.height 2))

/-- The label rectangles of the commands, in the order in which the labels were drawn. -/
def drawnRects : List (DrawCommand F) → List QRect
  | [] => []
  | DrawCommand.drawLine _ _ :: cs => drawnRects cs
  | DrawCommand.drawText r _ :: cs => r :: drawnRects cs

/-- The rectangle of the most recently drawn label, if a label has been drawn. -/
def lastDrawnRect (out : List (DrawCommand F)) : Option QRect :=
  (drawnRects out).getLast?

/-- The bounding box of the label of a tick whose grid line ends at `p1`, 50 by 20 pixels:
centred below the end of the line on a horizontal axis, to the left of it and vertically
centred on a vertical axis. -/
def Axis.labelRect (a : Axis F) (p1 : QPoint) : QRect :=
  QRect.ofSize
    (p1.x - (if a._direction = AxisDirection.horizontal then 25 else 55))
    (p1.y - (if a._direction = AxisDirection.horizontal then 0 else 10)) 50 20

/-- The body of the loop of `Axis::paint`, for the label `l`. -/
def Axis.paintStep [FloorRing F] (a : Axis F) (log : F → F) (st : PaintState F) (l : F) :
    PaintState F :=
  match a.convert log l a.size with
  | Except.error _ => st
  | Except.ok t =>
    if !(a.limit.contains (a.p1 t)) || !(a.limit.contains (a.p2 t)) then st
    else
      let out1 := st.out ++ [DrawCommand.drawLine (a.p1 t) (a.p2 t)]
      let textRect := a.moveTextRect st.textRect (a.p1 t)
      if st.lastTextRect.isEmpty || !(st.lastTextRect.intersects textRect) then
        { textRect := textRect, lastTextRect := textRect,
          out := out1 ++ [DrawCommand.drawText textRect (l * a._scale)] }
      else
        { textRect := textRect, lastTextRect := st.lastTextRect, out := out1 }

/-- The state of `paint` before its loop: `textRect(0, 0, 50, 20)`, a null `lastTextRect`,
nothing drawn. -/
def PaintState.init : PaintState F :=
  { textRect := QRect.ofSize 0 0 50 20, lastTextRect := QRect.null, out := [] }

/-- The state of `Axis::paint` after its loop over the given labels. -/
def Axis.paintLoop [FloorRing F] (a : Axis F) (log : F → F) (labels : List F) :
    PaintState F :=
  labels.foldl (a.paintStep log) PaintState.init

/-- `Axis::paint`: the draw commands issued for the labels of the axis, in order. -/
def Axis.paint [FloorRing F] (a : Axis F) (log : F → F) : List (DrawCommand F) :=
  (a.paintLoop log a._labels).out

/-- What holds of the state of `paint` between two iterations of its loop: `textRect` is
50 by 20 pixels; `lastTextRect` is null as long as no label has been drawn and is the
50 by 20 rectangle of the most recently drawn label afterwards; labels drawn one after the
other do not intersect; every line drawn has both ends in `limit`. -/
def PaintState.invariant [FloorRing F] (a : Axis F) (st : PaintState F) : Prop :=
  (st.textRect.x2 = st.textRect.x1 + 49 ∧ st.textRect.y2 = st.textRect.y1 + 19) ∧
  ((lastDrawnRect st.out = none ∧ st.lastTextRect = QRect.null) ∨
    (lastDrawnRect st.out = some st.lastTextRect ∧
      st.lastTextRect.x2 = st.lastTextRect.x1 + 49 ∧
      st.lastTextRect.y2 = st.lastTextRect.y1 + 19)) ∧
  List.Chain' (fun r s : QRect => r.intersects s = false) (drawnRects st.out) ∧
  (∀ p q, DrawCommand.drawLine p q ∈ st.out →
    a.limit.contains p = true ∧ a.limit.contains q = true)

/-- The range invariant of the data model: `lowLimit ≤ min ≤ max ≤ highLimit`. -/
def Axis.rangeInvariant (a : Axis F) : Prop :=
  a._lowLimit ≤ a._min ∧ a._min ≤ a._max ∧ a._max ≤ a._highLimit

/-- A concrete axis on which the definitions can be evaluated: horizontal, unit scale 1,
no labels, an 800 by 600 item with fixed padding. -/
def sampleAxis (t : AxisType) (lo mn mx hi : F) : Axis F :=
  { _type := t, _direction := AxisDirection.horizontal, _min := mn, _max := mx,
    _scale := 1, _lowLimit := lo, _highLimit := hi, _labels := [],
    padding := { left := 50, right := 10, top := 10, bottom := 20 },
    width := 800, height := 600 }

/-! ## Elementary facts about `std_max` and `std_min` -/

theorem std_max_eq_max (a b : F) : std_max a b = max a b := by
  unfold std_max
  split_ifs with h
  · exact (max_eq_right h.le).symm
  · exact (max_eq_left (not_lt.mp h)).symm

theorem std_min_eq_min (a b : F) : std_min a b = min a b := by
  unfold std_min
  split_ifs with h
  · exact (min_eq_right h.le).symm
  · exact (min_eq_left (not_lt.mp h)).symm

/-! ## The loops of `autoLabels` -/

theorem toUInt_succ_of_lt {i : Nat} (h : i + 1 < UINT_RANGE) : toUInt (i + 1) = i + 1 :=
  Nat.mod_eq_of_lt h

theorem toUInt_lt (n : Nat) : toUInt n < UINT_RANGE :=
  Nat.mod_lt n (by decide)

/-- With enough fuel and no wrap of the counter, the uniform loop appends the values
`l, l + step, l + 2 step, …` for the remaining indices `i, …, ticks`. -/
theorem uniformLoop_eq (ticks : Nat) (step : F) (ht : ticks + 1 < UINT_RANGE) :
    ∀ (fuel i : Nat) (l : F) (labels : List F), i ≤ ticks + 1 → ticks + 2 ≤ fuel + i →
      uniformLoop ticks step fuel i l labels =
        some (labels ++ (List.range (ticks + 1 - i)).map fun (j : Nat) => l + (j : F) * step) := by
  intro fuel
  induction fuel with
  | zero => intro i l labels h1 h2; omega
  | succ fuel ih =>
    intro i l labels h1 h2
    unfold uniformLoop
    by_cases hi : i ≤ ticks
    · have hw : toUInt (i + 1) = i + 1 := toUInt_succ_of_lt (by omega)
      have hn : ticks + 1 - i = (ticks + 1 - (i + 1)) + 1 := by omega
      rw [if_pos hi, hw, ih (i + 1) (l + step) (labels ++ [l]) (by omega) (by omega), hn,
        List.range_succ_eq_map, List.map_cons, List.map_map, List.append_assoc]
      simp only [Nat.cast_zero, zero_mul, add_zero, List.singleton_append]
      congr 3
      apply List.map_congr_left
      intro j _
      simp only [Function.comp_apply, Nat.succ_eq_add_one, Nat.cast_add, Nat.cast_one]
      ring
    · have hn : ticks + 1 - i = 0 := by omega
      rw [if_neg hi, hn]
      simp

/-- When `ticks` is the largest `unsigned int`, the condition `i <= ticks` holds for
every counter value, and the uniform loop exhausts any fuel. -/
theorem uniformLoop_diverges (step : F) :
    ∀ (fuel i : Nat) (l : F) (labels : List F), i < UINT_RANGE →
      uniformLoop (UINT_RANGE - 1) step fuel i l labels = none := by
  intro fuel
  induction fuel with
  | zero => intro i l labels _; rfl
  | succ fuel ih =>
    intro i l labels hi
    unfold uniformLoop
    rw [if_pos (by omega)]
    exact ih _ _ _ (toUInt_lt _)

/-- With enough fuel, the symmetric loop appends the pairs `l + step, -(l + step)`,
`l + 2 step, -(l + 2 step)`, … for the remaining indices `i, …, bound - 1`. -/
theorem symmetricLoop_eq (bound : Nat) (step : F) (hb : bound < UINT_RANGE) :
    ∀ (fuel i : Nat) (l : F) (labels : List F), i ≤ bound → bound + 1 ≤ fuel + i →
      symmetricLoop bound step fuel i l labels =
        some (labels ++ (List.range (bound - i)).flatMap fun (j : Nat) =>
          [l + ((j : F) + 1) * step, -(l + ((j : F) + 1) * step)]) := by
  intro fuel
  induction fuel with
  | zero => intro i l labels h1 h2; omega
  | succ fuel ih =>
    intro i l labels h1 h2
    unfold symmetricLoop
    by_cases hi : i < bound
    · have hw : toUInt (i + 1) = i + 1 := toUInt_succ_of_lt (by omega)
      have hn : bound - i = (bound - (i + 1)) + 1 := by omega
      rw [if_pos hi, hw, ih (i + 1) (l + step) _ (by omega) (by omega), hn,
        List.range_succ_eq_map, List.flatMap_cons, List.flatMap_map, List.append_assoc]
      simp only [Nat.cast_zero, zero_add, one_mul, neg_one_mul, List.cons_append,
        List.nil_append]
      congr 4
      apply List.flatMap_congr
      intro j _
      simp only [Nat.succ_eq_add_one, Nat.cast_add, Nat.cast_one]
      congr 1
      · ring
      · congr 1
        ring
    · have hn : bound - i = 0 := by omega
      rw [if_neg hi, hn]
      simp

/-! ## Range setters -/

/-- C1: from a state with `lowLimit ≤ min ≤ max ≤ highLimit`, both `setMin v` and
`setMax v` lead, for every `v`, to a state with `lowLimit ≤ min ≤ max ≤ highLimit`. -/
theorem setMin_setMax_preserve_rangeInvariant (a : Axis F) (v : F)
    (h : a.rangeInvariant) :
    (a.setMin v).rangeInvariant ∧ (a.setMax v).rangeInvariant := by
  obtain ⟨h1, h2, h3⟩ := h
  simp only [Axis.rangeInvariant, Axis.setMin, Axis.setMax, std_max_eq_max, std_min_eq_min]
  refine ⟨⟨le_max_left _ _, max_le (h1.trans h2) (min_le_right _ _), h3⟩,
    h1, le_min (h2.trans h3) (le_max_right _ _), min_le_left _ _⟩

theorem setMin_setMax_preserve_rangeInvariant_witness :
    (sampleAxis AxisType.linear (0 : ℚ) 2 5 10).rangeInvariant ∧
    ((sampleAxis AxisType.linear (0 : ℚ) 2 5 10).setMin 7).rangeInvariant ∧
    ((sampleAxis AxisType.linear (0 : ℚ) 2 5 10).setMax 1).rangeInvariant :=
  have h : (sampleAxis AxisType.linear (0 : ℚ) 2 5 10).rangeInvariant := by
    norm_num [Axis.rangeInvariant, sampleAxis]
  ⟨h, setMin_setMax_preserve_rangeInvariant _ 7 h⟩

/-- C3: `setMin v` stores `v` clamped into `[lowLimit, max]` (when `lowLimit ≤ max`) and
`setMax v` stores `v` clamped into `[min, highLimit]` (when `min ≤ highLimit`): the value
itself inside the interval, the nearer end outside of it. -/
theorem setMin_setMax_clamp (a : Axis F) (v : F) :
    (a._lowLimit ≤ a._max →
      (a._lowLimit ≤ v → v ≤ a._max → (a.setMin v)._min = v) ∧
      (v < a._lowLimit → (a.setMin v)._min = a._lowLimit) ∧
      (a._max < v → (a.setMin v)._min = a._max)) ∧
    (a._min ≤ a._highLimit →
      (a._min ≤ v → v ≤ a._highLimit → (a.setMax v)._max = v) ∧
      (a._highLimit < v → (a.setMax v)._max = a._highLimit) ∧
      (v < a._min → (a.setMax v)._max = a._min)) := by
  simp only [Axis.setMin, Axis.setMax, std_max_eq_max, std_min_eq_min]
  refine ⟨fun h => ⟨fun h1 h2 => ?_, fun h1 => ?_, fun h1 => ?_⟩,
    fun h => ⟨fun h1 h2 => ?_, fun h1 => ?_, fun h1 => ?_⟩⟩
  · rw [min_eq_left h2, max_eq_right h1]
  · rw [min_eq_left (h1.le.trans h), max_eq_left h1.le]
  · rw [min_eq_right h1.le, max_eq_right h]
  · rw [max_eq_left h1, min_eq_right h2]
  · rw [max_eq_left (h.trans h1.le), min_eq_left h1.le]
  · rw [max_eq_right h1.le, min_eq_right h]

theorem setMin_setMax_clamp_witness :
    ((sampleAxis AxisType.linear (0 : ℚ) 2 5 10).setMin 3)._min = 3 ∧
    ((sampleAxis AxisType.linear (0 : ℚ) 2 5 10).setMin (-1))._min = 0 ∧
    ((sampleAxis AxisType.linear (0 : ℚ) 2 5 10).setMin 7)._min = 5 ∧
    ((sampleAxis AxisType.linear (0 : ℚ) 2 5 10).setMax 3)._max = 3 ∧
    ((sampleAxis AxisType.linear (0 : ℚ) 2 5 10).setMax 11)._max = 10 ∧
    ((sampleAxis AxisType.linear (0 : ℚ) 2 5 10).setMax 1)._max = 2 := by
  have h := setMin_setMax_clamp (sampleAxis AxisType.linear (0 : ℚ) 2 5 10)
  have lo : (sampleAxis AxisType.linear (0 : ℚ) 2 5 10)._lowLimit ≤
      (sampleAxis AxisType.linear (0 : ℚ) 2 5 10)._max := by norm_num [sampleAxis]
  have hi : (sampleAxis AxisType.linear (0 : ℚ) 2 5 10)._min ≤
      (sampleAxis AxisType.linear (0 : ℚ) 2 5 10)._highLimit := by norm_num [sampleAxis]
  refine ⟨((h 3).1 lo).1 ?_ ?_, ((h (-1)).1 lo).2.1 ?_, ((h 7).1 lo).2.2 ?_,
    ((h 3).2 hi).1 ?_ ?_, ((h 11).2 hi).2.1 ?_, ((h 1).2 hi).2.2 ?_⟩ <;>
  norm_num [sampleAxis]

/-! ## `autoLabels` and `configure` -/

theorem toUInt_decrement {ticks : Nat} (h1 : 1 ≤ ticks) (h2 : ticks < UINT_RANGE) :
    toUInt (ticks + (UINT_RANGE - 1)) = ticks - 1 := by
  unfold toUInt UINT_RANGE at *
  omega

/-- A returning `autoLabels` changes `_labels` and nothing else. -/
theorem autoLabels_frame (a s : Axis F) (fuel ticks : Nat)
    (h : a.autoLabels fuel ticks = some s) : ∃ ls, s = { a with _labels := ls } := by
  unfold Axis.autoLabels at h
  split_ifs at h
  · simp only [Option.map_eq_some'] at h
    obtain ⟨ls, -, rfl⟩ := h
    exact ⟨ls, rfl⟩
  · simp only [Option.map_eq_some'] at h
    obtain ⟨ls, -, rfl⟩ := h
    exact ⟨ls, rfl⟩

/-- Unless `ticks` is the largest `unsigned int`, `autoLabels` returns: on `2 ^ 32` units
of fuel for every such `ticks`, and on `ticks + 2` units when `ticks` is not zero. -/
theorem autoLabels_returns (a : Axis F) (fuel ticks : Nat) (ht : ticks + 1 < UINT_RANGE)
    (hf : UINT_RANGE ≤ fuel ∨ (1 ≤ ticks ∧ ticks + 2 ≤ fuel)) :
    ∃ ls, a.autoLabels fuel ticks = some { a with _labels := ls } := by
  unfold Axis.autoLabels
  split_ifs
  · have hb : toUInt (ticks + (UINT_RANGE - 1)) / 2 < UINT_RANGE :=
      lt_of_le_of_lt (Nat.div_le_self _ _) (toUInt_lt _)
    have hfuel : toUInt (ticks + (UINT_RANGE - 1)) / 2 + 1 ≤ fuel + 0 := by
      rcases hf with hf | ⟨h1, hf⟩
      · omega
      · rw [toUInt_decrement h1 (by omega)]
        omega
    dsimp only
    rw [symmetricLoop_eq _ _ hb fuel 0 (0 : F) [0] (Nat.zero_le _) hfuel]
    exact ⟨_, rfl⟩
  · dsimp only
    rw [uniformLoop_eq ticks _ ht fuel 0 _ ([] : List F) (Nat.zero_le _) (by omega)]
    exact ⟨_, rfl⟩

/-- Whatever the previous state, the range statements of `configure(type, lo, hi, …)` leave
`lo` in `_lowLimit` and `_min`, `hi` in `_max` and `_highLimit`. -/
theorem configureRange_range (a : Axis F) (t : AxisType) (lo hi sc : F) :
    (a.configureRange t lo hi sc)._lowLimit = lo ∧ (a.configureRange t lo hi sc)._min = lo ∧
    (a.configureRange t lo hi sc)._max = hi ∧ (a.configureRange t lo hi sc)._highLimit = hi := by
  simp only [Axis.configureRange, Axis.setType, Axis.setMin, Axis.setMax, Axis.setScale,
    std_max_eq_max, std_min_eq_min, true_and, and_true]
  exact ⟨max_eq_left (min_le_left _ _), min_eq_left (le_max_left _ _)⟩

/-- The range fields of a state returned by `configure(type, lo, hi, …)`. -/
theorem configure_range (a s : Axis F) (fuel : Nat) (t : AxisType) (lo hi : F)
    (ticks : Nat) (sc : F) (h : a.configure fuel t lo hi ticks sc = some s) :
    s._lowLimit = lo ∧ s._min = lo ∧ s._max = hi ∧ s._highLimit = hi := by
  unfold Axis.configure at h
  dsimp only at h
  split_ifs at h
  · obtain ⟨ls, rfl⟩ := autoLabels_frame _ _ _ _ h
    exact configureRange_range a t lo hi sc
  · simp only [Option.some.injEq] at h
    subst h
    exact configureRange_range a t lo hi sc

/-- C2 (as amended): for every prior state and all arguments with `min ≤ max`, every state
that `configure` returns satisfies `lowLimit ≤ min ≤ max ≤ highLimit`; and `configure`
does return such a state, on `2 ^ 32` units of fuel, for every tick count below
`2 ^ 32 - 1`. -/
theorem configure_rangeInvariant (a : Axis F) (t : AxisType) (lo hi : F) (ticks : Nat)
    (sc : F) (h : lo ≤ hi) :
    (∀ fuel s, a.configure fuel t lo hi ticks sc = some s → s.rangeInvariant) ∧
    (ticks < 4294967295 → ∀ fuel, 4294967296 ≤ fuel →
      ∃ s, a.configure fuel t lo hi ticks sc = some s ∧ s.rangeInvariant) := by
  have inv : ∀ fuel s, a.configure fuel t lo hi ticks sc = some s → s.rangeInvariant := by
    intro fuel s hs
    obtain ⟨h1, h2, h3, h4⟩ := configure_range a s fuel t lo hi ticks sc hs
    simp only [Axis.rangeInvariant, h1, h2, h3, h4]
    exact ⟨le_refl _, h, le_refl _⟩
  refine ⟨inv, fun ht fuel hf => ?_⟩
  have hsome : ∃ s, a.configure fuel t lo hi ticks sc = some s := by
    unfold Axis.configure
    dsimp only
    split_ifs
    · obtain ⟨ls, hls⟩ := autoLabels_returns (a.configureRange t lo hi sc) fuel ticks
        (by unfold UINT_RANGE; omega) (Or.inl hf)
      exact ⟨_, hls⟩
    · exact ⟨_, rfl⟩
  obtain ⟨s, hs⟩ := hsome
  exact ⟨s, hs, inv fuel s hs⟩

theorem configure_rangeInvariant_witness :
    ∃ s, (sampleAxis AxisType.logarithmic (20 : ℚ) 20 20000 20000).configure 6
      AxisType.linear 0 100 4 1 = some s ∧ s.rangeInvariant := by
  obtain ⟨ls, hls⟩ := autoLabels_returns
    ((sampleAxis AxisType.logarithmic (20 : ℚ) 20 20000 20000).configureRange
      AxisType.linear 0 100 1) 6 4 (by decide) (Or.inr (by decide))
  exact ⟨_, hls, (configure_rangeInvariant _ AxisType.linear 0 100 4 1 (by norm_num)).1 6 _ hls⟩

/-- C2 (counterexample): `configure(linear, 5, 3, 4, 1)` returns a state with `min = 5` and
`max = 3`, which violates `min ≤ max`. -/
theorem configure_rangeInvariant_counterexample :
    ∃ s, (sampleAxis AxisType.linear (0 : ℚ) 0 1 1).configure 6 AxisType.linear 5 3 4 1 = some s ∧
      s._min = 5 ∧ s._max = 3 ∧ ¬ s.rangeInvariant := by
  obtain ⟨s, hs⟩ : ∃ s, (sampleAxis AxisType.linear (0 : ℚ) 0 1 1).configure 6
      AxisType.linear 5 3 4 1 = some s := by
    obtain ⟨ls, hls⟩ := autoLabels_returns
      ((sampleAxis AxisType.linear (0 : ℚ) 0 1 1).configureRange AxisType.linear 5 3 1) 6 4
      (by decide) (Or.inr (by decide))
    exact ⟨_, hls⟩
  obtain ⟨-, h2, h3, -⟩ := configure_range _ _ _ _ _ _ _ _ hs
  refine ⟨s, hs, h2, h3, ?_⟩
  simp only [Axis.rangeInvariant, h2, h3]
  norm_num

/-! ## Tick generation -/

/-- A list made of `k` consecutive pairs has `2 * k` entries. -/
theorem length_flatMap_pairs {α : Type} (f g : Nat → α) (k : Nat) :
    ((List.range k).flatMap fun (j : Nat) => [f j, g j]).length = 2 * k := by
  induction k with
  | zero => simp
  | succ k ih =>
    rw [List.range_succ, List.flatMap_append, List.length_append, ih]
    simp
    ring

/-- C9 (as amended): in the uniform case (`min ≤ max`, not `|min + max| < max(|min|, |max|)`)
and for `1 ≤ tickCount < 2 ^ 32 - 1`, `autoLabels(tickCount)` returns on `tickCount + 2`
units of fuel and replaces the labels by the `tickCount + 1` values
`min + i * |max - min| / tickCount`, `i = 0, …, tickCount`; the first is `min`, the last
is `max`; for `min = 0`, `max = 100`, `tickCount = 4` the list is `[0, 25, 50, 75, 100]`. -/
theorem autoLabels_uniform (a : Axis F) (fuel ticks : Nat)
    (hmm : a._min ≤ a._max) (hu : ¬ |a._min + a._max| < max |a._min| |a._max|)
    (h1 : 1 ≤ ticks) (ht : ticks < 4294967295) (hf : ticks + 2 ≤ fuel) :
    ∃ ls, a.autoLabels fuel ticks = some { a with _labels := ls } ∧
      ls = (List.range (ticks + 1)).map
        (fun (i : Nat) => a._min + (i : F) * |a._max - a._min| / (ticks : F)) ∧
      ls.length = ticks + 1 ∧ ls.head? = some a._min ∧ ls.getLast? = some a._max ∧
      (a._min = 0 → a._max = 100 → ticks = 4 → ls = [0, 25, 50, 75, 100]) := by
  have ht0 : (ticks : F) ≠ 0 := Nat.cast_ne_zero.mpr (by omega)
  refine ⟨_, ?_, rfl, by simp, ?_, ?_, ?_⟩
  · unfold Axis.autoLabels
    rw [std_max_eq_max, if_neg hu]
    dsimp only
    rw [uniformLoop_eq ticks _ (by unfold UINT_RANGE; omega) fuel 0 _ ([] : List F)
      (Nat.zero_le _) (by omega)]
    simp only [List.nil_append, Nat.sub_zero, mul_div_assoc, Option.map_some']
  · rw [List.range_succ_eq_map]
    simp
  · rw [List.range_succ, List.map_append, List.map_singleton, List.getLast?_concat,
      abs_of_nonneg (sub_nonneg.mpr hmm)]
    congr 1
    field_simp
  · intro hmin hmax htk
    subst htk
    rw [hmin, hmax]
    norm_num [List.range_succ]

theorem autoLabels_uniform_witness :
    (sampleAxis AxisType.linear (0 : ℚ) 0 100 100).autoLabels 6 4 =
      some { sampleAxis AxisType.linear (0 : ℚ) 0 100 100 with _labels := [0, 25, 50, 75, 100] } := by
  obtain ⟨ls, h, -, -, -, -, hex⟩ := autoLabels_uniform
    (sampleAxis AxisType.linear (0 : ℚ) 0 100 100) 6 4 (by norm_num [sampleAxis])
    (by norm_num [sampleAxis]) (by decide) (by decide) (by decide)
  rw [h, hex rfl rfl rfl]

/-- C9 (counterexample): in the uniform case with `min = 0`, `max = 100` and
`tickCount = 2 ^ 32 - 1`, the loop condition `i <= ticks` never fails: on no amount of
fuel does `autoLabels` return a list. -/
theorem autoLabels_uniform_counterexample :
    ¬ ∃ fuel s, (sampleAxis AxisType.linear (0 : ℚ) 0 100 100).autoLabels fuel 4294967295 =
      some s := by
  rintro ⟨fuel, s, h⟩
  unfold Axis.autoLabels at h
  rw [if_neg (by norm_num [sampleAxis, std_max_eq_max])] at h
  dsimp only at h
  rw [show (4294967295 : Nat) = UINT_RANGE - 1 from rfl,
    uniformLoop_diverges _ fuel 0 _ _ (by decide)] at h
  simp at h

/-- C10: in the symmetric case (`|min + max| < max(|min|, |max|)`) and for every
`tickCount ≥ 2`, `autoLabels(tickCount)` returns, on `⌊(tickCount - 1) / 2⌋ + 1` units of
fuel, and replaces the labels by `[0, s, -s, 2 s, -2 s, …, k s, -k s]` with
`s = 2 * max(|min|, |max|) / (tickCount - 1)` and `k = ⌊(tickCount - 1) / 2⌋`; the list
has `1 + 2 k` entries, contains `0`, and contains `-x` with every `x`; for `min = -10`,
`max = 30`, `tickCount = 6` it is `[0, 12, -12, 24, -24]`. -/
theorem autoLabels_symmetric (a : Axis F) (fuel ticks : Nat)
    (hs : |a._min + a._max| < max |a._min| |a._max|)
    (h2 : 2 ≤ ticks) (ht : ticks < 4294967296) (hf : (ticks - 1) / 2 + 1 ≤ fuel) :
    ∃ ls, a.autoLabels fuel ticks = some { a with _labels := ls } ∧
      ls = 0 :: (List.range ((ticks - 1) / 2)).flatMap (fun (j : Nat) =>
        [((j : F) + 1) * (2 * max |a._min| |a._max| / ((ticks : F) - 1)),
         -(((j : F) + 1) * (2 * max |a._min| |a._max| / ((ticks : F) - 1)))]) ∧
      ls.length = 1 + 2 * ((ticks - 1) / 2) ∧ 0 ∈ ls ∧ (∀ x ∈ ls, -x ∈ ls) ∧
      (a._min = -10 → a._max = 30 → ticks = 6 → ls = [0, 12, -12, 24, -24]) := by
  refine ⟨_, ?_, rfl, ?_, List.mem_cons_self _ _, ?_, ?_⟩
  · unfold Axis.autoLabels
    rw [std_max_eq_max, if_pos hs]
    dsimp only
    rw [toUInt_decrement (by omega) (by unfold UINT_RANGE; omega),
      symmetricLoop_eq _ _ (by unfold UINT_RANGE; omega) fuel 0 (0 : F) [0] (Nat.zero_le _)
        (by omega)]
    simp only [zero_add, Nat.sub_zero, List.singleton_append, Option.map_some',
      Nat.cast_pred (show 0 < ticks by omega)]
  · rw [List.length_cons, length_flatMap_pairs]
    omega
  · intro x hx
    rw [List.mem_cons, List.mem_flatMap] at hx ⊢
    rcases hx with rfl | ⟨j, hj, hx⟩
    · exact Or.inl neg_zero
    · right
      refine ⟨j, hj, ?_⟩
      simp only [List.mem_cons, List.mem_singleton, List.not_mem_nil, or_false] at hx ⊢
      rcases hx with rfl | rfl
      · exact Or.inr rfl
      · exact Or.inl (neg_neg _)
  · intro hmin hmax htk
    subst htk
    rw [hmin, hmax]
    norm_num [List.range_succ]

theorem autoLabels_symmetric_witness :
    (sampleAxis AxisType.linear (-10 : ℚ) (-10) 30 30).autoLabels 3 6 =
      some { sampleAxis AxisType.linear (-10 : ℚ) (-10) 30 30 with
        _labels := [0, 12, -12, 24, -24] } := by
  obtain ⟨ls, h, -, -, -, -, hex⟩ := autoLabels_symmetric
    (sampleAxis AxisType.linear (-10 : ℚ) (-10) 30 30) 3 6 (by norm_num [sampleAxis])
    (by decide) (by decide) (by decide)
  rw [h, hex rfl rfl rfl]

/-! ## Scale transforms -/

/-- On a logarithmic axis a non-zero value is converted by the formula, without a throw. -/
theorem convert_logarithmic_of_ne_zero (a : Axis F) (log : F → F) (v L : F)
    (h : a._type = AxisType.logarithmic) (hv : v ≠ 0) :
    a.convert log v L = Except.ok (L * (log v - log a._min) / log (a._max / a._min)) := by
  unfold Axis.convert
  rw [if_pos h, if_neg hv]

/-- C4: on a logarithmic axis `convert(0, L)` throws `std::invalid_argument`, for every
length `L` and every `min` and `max`; it returns no coordinate. -/
theorem convert_zero_logarithmic (a : Axis F) (log : F → F) (L : F)
    (h : a._type = AxisType.logarithmic) :
    a.convert log 0 L = Except.error Exception.invalid_argument := by
  unfold Axis.convert
  rw [if_pos h, if_pos rfl]

theorem convert_zero_logarithmic_witness :
    (sampleAxis AxisType.logarithmic (20 : ℝ) 20 20000 20000).convert Real.log 0 1000 =
      Except.error Exception.invalid_argument :=
  convert_zero_logarithmic _ Real.log 1000 rfl

/-- C5 (as amended): on a logarithmic axis `convert(value, L)` throws exactly when
`value = 0`, whatever `min` is; for every other value, negative ones included, and for
every `min`, zero and negative ones included, it returns the value of the formula. -/
theorem convert_logarithmic_error_iff (a : Axis F) (log : F → F) (v L : F)
    (h : a._type = AxisType.logarithmic) :
    (a.convert log v L = Except.error Exception.invalid_argument ↔ v = 0) ∧
    (v ≠ 0 →
      a.convert log v L = Except.ok (L * (log v - log a._min) / log (a._max / a._min))) := by
  refine ⟨⟨fun he => ?_, fun hv => ?_⟩, convert_logarithmic_of_ne_zero a log v L h⟩
  · by_contra hv
    rw [convert_logarithmic_of_ne_zero a log v L h hv] at he
    cases he
  · unfold Axis.convert
    rw [if_pos h, if_pos hv]

theorem convert_logarithmic_error_iff_witness :
    (sampleAxis AxisType.logarithmic (20 : ℝ) 20 20000 20000).convert Real.log (-1) 1000 =
      Except.ok (1000 * (Real.log (-1) - Real.log 20) / Real.log (20000 / 20)) :=
  (convert_logarithmic_error_iff (sampleAxis AxisType.logarithmic (20 : ℝ) 20 20000 20000)
    Real.log (-1) 1000 rfl).2 (by norm_num)

/-- C5 (counterexample): on a logarithmic axis with `min = 1`, `max = 10`, `convert(-1, 100)`
returns a coordinate, and on a logarithmic axis with `min = 0`, `max = 10`, so does
`convert(5, 100)`; neither throws. -/
theorem convert_domain_counterexample :
    (∃ c, (sampleAxis AxisType.logarithmic (1 : ℝ) 1 10 10).convert Real.log (-1) 100 =
      Except.ok c) ∧
    (∃ c, (sampleAxis AxisType.logarithmic (0 : ℝ) 0 10 10).convert Real.log 5 100 =
      Except.ok c) := by
  exact ⟨⟨_, convert_logarithmic_of_ne_zero _ Real.log (-1) 100 rfl (by norm_num)⟩,
    ⟨_, convert_logarithmic_of_ne_zero _ Real.log 5 100 rfl (by norm_num)⟩⟩

/-- C6: on a linear axis with `min < max`, for every length `L > 0` and every value in
`[min, max]`, `convert` returns a coordinate and `reverse` maps it back to the value. -/
theorem linear_round_trip (a : Axis F) (log : F → F) (pow : F → F → F) (M_E v L : F)
    (ht : a._type = AxisType.linear) (hmm : a._min < a._max) (hL : 0 < L)
    (hv1 : a._min ≤ v) (hv2 : v ≤ a._max) :
    ∃ c, a.convert log v L = Except.ok c ∧ a.reverse log pow M_E c L = v := by
  have hne : a._type ≠ AxisType.logarithmic := by rw [ht]; decide
  have hd : a._max - a._min ≠ 0 := (sub_pos.mpr hmm).ne'
  refine ⟨L * (v - a._min) / (a._max - a._min), ?_, ?_⟩
  · unfold Axis.convert
    rw [if_neg hne]
  · unfold Axis.reverse
    rw [if_neg hne]
    field_simp

theorem linear_round_trip_witness :
    ∃ c, (sampleAxis AxisType.linear (0 : ℚ) 0 100 100).convert (fun x => x) 25 1000 =
        Except.ok c ∧
      (sampleAxis AxisType.linear (0 : ℚ) 0 100 100).reverse (fun x => x) (fun _ y => y) 1
        c 1000 = 25 :=
  linear_round_trip (sampleAxis AxisType.linear (0 : ℚ) 0 100 100) (fun x => x)
    (fun _ y => y) 1 25 1000 rfl (by norm_num [sampleAxis]) (by norm_num)
    (by norm_num [sampleAxis]) (by norm_num [sampleAxis])

/-- C7: on a logarithmic axis with `0 < min < max`, for every length `L > 0` and every
value in `(min, max]`, `convert` returns a coordinate and `reverse` maps it back to the
value (over the reals, `pow(M_E, x)` being the real power of `e = exp 1`). -/
theorem logarithmic_round_trip (a : Axis ℝ) (v L : ℝ)
    (ht : a._type = AxisType.logarithmic) (h0 : 0 < a._min) (hmm : a._min < a._max)
    (hL : 0 < L) (hv1 : a._min < v) (hv2 : v ≤ a._max) :
    ∃ c, a.convert Real.log v L = Except.ok c ∧
      a.reverse Real.log Real.rpow (Real.exp 1) c L = v := by
  have hv : 0 < v := h0.trans hv1
  have hD : Real.log (a._max / a._min) ≠ 0 :=
    (Real.log_pos ((one_lt_div h0).mpr hmm)).ne'
  refine ⟨L * (Real.log v - Real.log a._min) / Real.log (a._max / a._min), ?_, ?_⟩
  · unfold Axis.convert
    rw [if_pos ht, if_neg hv.ne']
  · unfold Axis.reverse
    rw [if_pos ht, Real.rpow_eq_pow, Real.exp_one_rpow]
    have he : Real.log a._min + L * (Real.log v - Real.log a._min) /
        Real.log (a._max / a._min) * Real.log (a._max / a._min) / L = Real.log v := by
      field_simp
    rw [he, Real.exp_log hv]

theorem logarithmic_round_trip_witness :
    ∃ c, (sampleAxis AxisType.logarithmic (20 : ℝ) 20 20000 20000).convert Real.log 2000
        1000 = Except.ok c ∧
      (sampleAxis AxisType.logarithmic (20 : ℝ) 20 20000 20000).reverse Real.log Real.rpow
        (Real.exp 1) c 1000 = 2000 :=
  logarithmic_round_trip (sampleAxis AxisType.logarithmic (20 : ℝ) 20 20000 20000) 2000 1000
    rfl (by norm_num [sampleAxis]) (by norm_num [sampleAxis]) (by norm_num)
    (by norm_num [sampleAxis]) (by norm_num [sampleAxis])

/-- C8: on a logarithmic axis with `0 < min < max`, `convert(min * (max / min) ^ p, L)` is
`p * L` for every real `p` and every `L`; in particular `convert(min, L) = 0` and
`convert(max, L) = L`; and with `min = 20`, `max = 20000`, `convert(2000, 1000)` is
`2000 / 3`, which is `666.7` to one decimal. -/
theorem convert_logarithmic_fraction (a : Axis ℝ)
    (ht : a._type = AxisType.logarithmic) (h0 : 0 < a._min) (hmm : a._min < a._max) :
    (∀ p L : ℝ, a.convert Real.log (a._min * (a._max / a._min) ^ p) L = Except.ok (p * L)) ∧
    (∀ L : ℝ, a.convert Real.log a._min L = Except.ok 0) ∧
    (∀ L : ℝ, a.convert Real.log a._max L = Except.ok L) ∧
    (a._min = 20 → a._max = 20000 →
      a.convert Real.log 2000 1000 = Except.ok (2000 / 3) ∧
        |(2000 / 3 : ℝ) - 666.7| < 0.05) := by
  have hr : 0 < a._max / a._min := div_pos (h0.trans hmm) h0
  have hD : Real.log (a._max / a._min) ≠ 0 :=
    (Real.log_pos ((one_lt_div h0).mpr hmm)).ne'
  refine ⟨fun p L => ?_, fun L => ?_, fun L => ?_, fun hmin hmax => ⟨?_, ?_⟩⟩
  · have hp : 0 < (a._max / a._min) ^ p := Real.rpow_pos_of_pos hr p
    unfold Axis.convert
    rw [if_pos ht, if_neg (mul_pos h0 hp).ne', Real.log_mul h0.ne' hp.ne', Real.log_rpow hr]
    congr 1
    field_simp
    ring
  · unfold Axis.convert
    rw [if_pos ht, if_neg h0.ne', sub_self, mul_zero, zero_div]
  · unfold Axis.convert
    rw [if_pos ht, if_neg (h0.trans hmm).ne', ← Real.log_div (h0.trans hmm).ne' h0.ne']
    congr 1
    field_simp
  · have h10 : Real.log 10 ≠ 0 := (Real.log_pos (by norm_num)).ne'
    have e1 : Real.log 2000 - Real.log 20 = 2 * Real.log 10 := by
      rw [← Real.log_div (by norm_num) (by norm_num),
        show (2000 / 20 : ℝ) = 10 ^ 2 by norm_num, Real.log_pow]
      norm_num
    have e2 : Real.log (20000 / 20) = 3 * Real.log 10 := by
      rw [show (20000 / 20 : ℝ) = 10 ^ 3 by norm_num, Real.log_pow]
      norm_num
    unfold Axis.convert
    rw [if_pos ht, if_neg (by norm_num), hmin, hmax, e1, e2]
    congr 1
    field_simp
    ring
  · rw [abs_lt]
    constructor <;> norm_num

theorem convert_logarithmic_fraction_witness :
    (sampleAxis AxisType.logarithmic (20 : ℝ) 20 20000 20000).convert Real.log 2000 1000 =
      Except.ok (2000 / 3) :=
  ((convert_logarithmic_fraction (sampleAxis AxisType.logarithmic (20 : ℝ) 20 20000 20000)
    rfl (by norm_num [sampleAxis]) (by norm_num [sampleAxis])).2.2.2 rfl rfl).1


/-! ## `configure` as a whole -/

/-- The fields other than the range that the range statements of `configure` leave. -/
theorem configureRange_others (a : Axis F) (t : AxisType) (lo hi sc : F) :
    (a.configureRange t lo hi sc)._type = t ∧ (a.configureRange t lo hi sc)._scale = sc ∧
    (a.configureRange t lo hi sc)._labels = a._labels := by
  simp only [Axis.configureRange, Axis.setType, Axis.setMin, Axis.setMax, Axis.setScale,
    and_self]

/-- Run again on their own result, with any list of labels in it, the range statements of
`configure` change nothing. -/
theorem configureRange_idem (a : Axis F) (t : AxisType) (lo hi sc : F) (ls : List F) :
    ({ a.configureRange t lo hi sc with _labels := ls } : Axis F).configureRange t lo hi sc =
      { a.configureRange t lo hi sc with _labels := ls } := by
  simp only [Axis.configureRange, Axis.setType, Axis.setMin, Axis.setMax, Axis.setScale,
    std_max_eq_max, std_min_eq_min]
  congr 1 <;> simp

/-- The labels that `autoLabels` produces depend on `_min` and `_max` only. -/
theorem autoLabels_labels_congr (a b : Axis F) (fuel ticks : Nat) (hmin : a._min = b._min)
    (hmax : a._max = b._max) :
    (a.autoLabels fuel ticks).map (fun s => s._labels) =
      (b.autoLabels fuel ticks).map (fun s => s._labels) := by
  unfold Axis.autoLabels
  rw [hmin, hmax]
  split_ifs <;> simp only [Option.map_map] <;> rfl

/-- The labels already present play no part in `autoLabels`. -/
theorem autoLabels_forget_labels (a : Axis F) (ls : List F) (fuel ticks : Nat) :
    ({ a with _labels := ls } : Axis F).autoLabels fuel ticks = a.autoLabels fuel ticks := by
  unfold Axis.autoLabels
  rfl

/-- A returned `configure` returns its own result when run again on it. -/
theorem configure_fixed (a s : Axis F) (fuel : Nat) (t : AxisType) (lo hi : F)
    (ticks : Nat) (sc : F) (h : a.configure fuel t lo hi ticks sc = some s) :
    s.configure fuel t lo hi ticks sc = some s := by
  unfold Axis.configure at h ⊢
  dsimp only at h ⊢
  split_ifs at h ⊢ with ht
  · obtain ⟨ls, rfl⟩ := autoLabels_frame _ _ _ _ h
    rw [configureRange_idem, autoLabels_forget_labels]
    exact h
  · simp only [Option.some.injEq] at h
    subst h
    exact congrArg some (configureRange_idem a t lo hi sc (a.configureRange t lo hi sc)._labels)

/-- Unless the tick count is the largest `unsigned int`, `configure` returns on `2 ^ 32`
units of fuel. -/
theorem configure_returns (a : Axis F) (fuel : Nat) (t : AxisType) (lo hi : F)
    (ticks : Nat) (sc : F) (ht : ticks < 4294967295) (hf : 4294967296 ≤ fuel) :
    ∃ s, a.configure fuel t lo hi ticks sc = some s := by
  unfold Axis.configure
  dsimp only
  split_ifs
  · obtain ⟨ls, hls⟩ := autoLabels_returns (a.configureRange t lo hi sc) fuel ticks
      (by unfold UINT_RANGE; omega) (Or.inl hf)
    exact ⟨_, hls⟩
  · exact ⟨_, rfl⟩

/-- C11: `configure` is idempotent: run with the same arguments on its own result it
returns that result unchanged, in all its fields (`configure` followed by `configure` is
`configure`); and for a tick count below `2 ^ 32 - 1` both runs return, on `2 ^ 32` units
of fuel. -/
theorem configure_idempotent (a : Axis F) (t : AxisType) (lo hi : F) (ticks : Nat) (sc : F) :
    (∀ fuel, (a.configure fuel t lo hi ticks sc).bind
        (fun s => s.configure fuel t lo hi ticks sc) = a.configure fuel t lo hi ticks sc) ∧
    (ticks < 4294967295 → ∀ fuel, 4294967296 ≤ fuel →
      ∃ s, a.configure fuel t lo hi ticks sc = some s ∧
        s.configure fuel t lo hi ticks sc = some s) := by
  refine ⟨fun fuel => ?_, fun ht fuel hf => ?_⟩
  · cases h : a.configure fuel t lo hi ticks sc with
    | none => rfl
    | some s => exact configure_fixed a s fuel t lo hi ticks sc h
  · obtain ⟨s, hs⟩ := configure_returns a fuel t lo hi ticks sc ht hf
    exact ⟨s, hs, configure_fixed a s fuel t lo hi ticks sc hs⟩

theorem configure_idempotent_witness :
    ∃ s, (sampleAxis AxisType.logarithmic (20 : ℚ) 20 20000 20000).configure 4294967296
        AxisType.linear (-10) 30 6 2 = some s ∧
      s.configure 4294967296 AxisType.linear (-10) 30 6 2 = some s :=
  (configure_idempotent (sampleAxis AxisType.logarithmic (20 : ℚ) 20 20000 20000)
    AxisType.linear (-10) 30 6 2).2 (by decide) 4294967296 (le_refl _)

/-- C12: `configure` with the logarithmic type leaves the labels as they were; with the
linear type the labels it leaves are those of `autoLabels(ticks)` run on any axis whose
`_min` and `_max` are the arguments just stored, whatever the list held before (and it
returns, on `2 ^ 32` units of fuel, for a tick count below `2 ^ 32 - 1`). -/
theorem configure_labels (a : Axis F) (lo hi : F) (ticks : Nat) (sc : F) :
    (∀ fuel, ∃ s, a.configure fuel AxisType.logarithmic lo hi ticks sc = some s ∧
      s._labels = a._labels) ∧
    (∀ fuel (b : Axis F), b._min = lo → b._max = hi →
      (a.configure fuel AxisType.linear lo hi ticks sc).map (fun s => s._labels) =
        (b.autoLabels fuel ticks).map (fun s => s._labels)) ∧
    (ticks < 4294967295 → ∀ fuel, 4294967296 ≤ fuel →
      ∃ s, a.configure fuel AxisType.linear lo hi ticks sc = some s) := by
  refine ⟨fun fuel => ⟨_, rfl, (configureRange_others a _ lo hi sc).2.2⟩,
    fun fuel b hmin hmax => ?_, fun ht fuel hf => configure_returns a fuel _ lo hi ticks sc ht hf⟩
  have hr := configureRange_range a AxisType.linear lo hi sc
  exact autoLabels_labels_congr _ b fuel ticks (hr.2.1.trans hmin.symm) (hr.2.2.1.trans hmax.symm)

theorem configure_labels_witness :
    (∃ s : Axis ℚ, ({ sampleAxis AxisType.linear (0 : ℚ) 0 1 1 with _labels := ISO_LABELS } : Axis ℚ).configure 0
        AxisType.logarithmic 20 20000 10 1 = some s ∧ s._labels = ISO_LABELS) ∧
    (({ sampleAxis AxisType.linear (0 : ℚ) 0 1 1 with _labels := ISO_LABELS } : Axis ℚ).configure 6
        AxisType.linear 0 100 4 1).map (fun s => s._labels) =
      ((sampleAxis AxisType.linear (0 : ℚ) 0 100 100).autoLabels 6 4).map (fun s => s._labels) :=
  ⟨(configure_labels ({ sampleAxis AxisType.linear (0 : ℚ) 0 1 1 with _labels := ISO_LABELS } : Axis ℚ)
      20 20000 10 1).1 0,
    (configure_labels ({ sampleAxis AxisType.linear (0 : ℚ) 0 1 1 with _labels := ISO_LABELS } : Axis ℚ)
      0 100 4 1).2.1 6 (sampleAxis AxisType.linear (0 : ℚ) 0 100 100) rfl rfl⟩

/-- C18: whatever the previous state (also one whose old `min` and `max` lie outside the new
limits) and whatever the arguments, a state returned by `configure(type, a, b, ticks, s)`
has `lowLimit = a`, `highLimit = b`, `min = a`, `max = b` and `scale = s`; and `configure`
returns, on `2 ^ 32` units of fuel, for a tick count below `2 ^ 32 - 1`. -/
theorem configure_stores_arguments (a : Axis F) (t : AxisType) (lo hi : F) (ticks : Nat)
    (sc : F) :
    (∀ fuel s, a.configure fuel t lo hi ticks sc = some s →
      s._lowLimit = lo ∧ s._highLimit = hi ∧ s._min = lo ∧ s._max = hi ∧ s._scale = sc) ∧
    (ticks < 4294967295 → ∀ fuel, 4294967296 ≤ fuel →
      ∃ s, a.configure fuel t lo hi ticks sc = some s) := by
  refine ⟨fun fuel s hs => ?_, fun ht fuel hf => configure_returns a fuel t lo hi ticks sc ht hf⟩
  obtain ⟨h1, h2, h3, h4⟩ := configure_range a s fuel t lo hi ticks sc hs
  refine ⟨h1, h4, h2, h3, ?_⟩
  unfold Axis.configure at hs
  dsimp only at hs
  split_ifs at hs
  · obtain ⟨ls, rfl⟩ := autoLabels_frame _ _ _ _ hs
    exact (configureRange_others a t lo hi sc).2.1
  · simp only [Option.some.injEq] at hs
    subst hs
    exact (configureRange_others a t lo hi sc).2.1

theorem configure_stores_arguments_witness :
    ∃ s : Axis ℚ, (sampleAxis AxisType.linear (0 : ℚ) 500 900 1000).configure 4294967296
        AxisType.linear (-10) 30 6 2 = some s ∧
      s._lowLimit = -10 ∧ s._highLimit = 30 ∧ s._min = -10 ∧ s._max = 30 ∧ s._scale = 2 := by
  obtain ⟨s, hs⟩ := (configure_stores_arguments (sampleAxis AxisType.linear (0 : ℚ) 500 900 1000)
    AxisType.linear (-10) 30 6 2).2 (by decide) 4294967296 (le_refl _)
  exact ⟨s, hs, (configure_stores_arguments (sampleAxis AxisType.linear (0 : ℚ) 500 900 1000)
    AxisType.linear (-10) 30 6 2).1 4294967296 s hs⟩

/-! ## The branch of `autoLabels`, monotonicity of `convert`, cursor read-out -/

/-- The condition `|x + y| < max(|x|, |y|)` says that `x` and `y` have strictly opposite
signs. -/
theorem abs_add_lt_max_abs_iff (x y : F) : |x + y| < max |x| |y| ↔ x * y < 0 := by
  rcases le_or_lt 0 x with hx | hx <;> rcases le_or_lt 0 y with hy | hy
  · rw [abs_of_nonneg hx, abs_of_nonneg hy, abs_of_nonneg (add_nonneg hx hy)]
    constructor
    · intro h
      rcases max_cases x y with ⟨hm, -⟩ | ⟨hm, -⟩ <;> rw [hm] at h <;> linarith
    · intro h
      exact absurd (mul_nonneg hx hy) (not_le.mpr h)
  · have hxy : x * y < 0 ∨ x = 0 := by
      rcases hx.eq_or_lt with h0 | h0
      · exact Or.inr h0.symm
      · exact Or.inl (mul_neg_of_pos_of_neg h0 hy)
    rcases hxy with hneg | h0
    · refine ⟨fun _ => hneg, fun _ => ?_⟩
      have hx0 : 0 < x := by
        rcases hx.eq_or_lt with h0 | h0
        · rw [← h0, zero_mul] at hneg
          exact absurd hneg (lt_irrefl _)
        · exact h0
      rw [abs_of_nonneg hx, abs_of_neg hy, abs_lt]
      constructor
      · have := le_max_right x (-y)
        linarith
      · have := le_max_left x (-y)
        linarith
    · subst h0
      simp
  · have hxy : x * y < 0 ∨ y = 0 := by
      rcases hy.eq_or_lt with h0 | h0
      · exact Or.inr h0.symm
      · exact Or.inl (mul_neg_of_neg_of_pos hx h0)
    rcases hxy with hneg | h0
    · refine ⟨fun _ => hneg, fun _ => ?_⟩
      have hy0 : 0 < y := by
        rcases hy.eq_or_lt with h0 | h0
        · rw [← h0, mul_zero] at hneg
          exact absurd hneg (lt_irrefl _)
        · exact h0
      rw [abs_of_neg hx, abs_of_nonneg hy, abs_lt]
      constructor
      · have := le_max_left (-x) y
        linarith
      · have := le_max_right (-x) y
        linarith
    · subst h0
      simp
  · rw [abs_of_neg hx, abs_of_neg hy, abs_of_neg (add_neg hx hy)]
    constructor
    · intro h
      rcases max_cases (-x) (-y) with ⟨hm, -⟩ | ⟨hm, -⟩ <;> rw [hm] at h <;> linarith
    · intro h
      exact absurd (mul_pos_of_neg_of_neg hx hy).le (not_le.mpr h)

/-- C17: the test `|min + max| < max(|min|, |max|)` of `autoLabels` holds exactly when
`min * max < 0`, that is when `min` and `max` are non-zero and of opposite sign; so
`autoLabels` runs its symmetric loop exactly then, and its uniform loop otherwise. -/
theorem autoLabels_symmetric_iff (a : Axis F) :
    (|a._min + a._max| < std_max |a._min| |a._max| ↔ a._min * a._max < 0) ∧
    (a._min * a._max < 0 ↔ a._min ≠ 0 ∧ a._max ≠ 0 ∧ (a._min < 0 ↔ 0 < a._max)) ∧
    (∀ fuel ticks, a.autoLabels fuel ticks =
      if a._min * a._max < 0 then
        (symmetricLoop (toUInt (ticks + (UINT_RANGE - 1)) / 2)
          (2 * std_max |a._min| |a._max| / (toUInt (ticks + (UINT_RANGE - 1)) : F)) fuel 0 0
            [0]).map fun ls => { a with _labels := ls }
      else
        (uniformLoop ticks (|a._max - a._min| / (ticks : F)) fuel 0 a._min []).map
          fun ls => { a with _labels := ls }) := by
  have key : |a._min + a._max| < std_max |a._min| |a._max| ↔ a._min * a._max < 0 := by
    rw [std_max_eq_max]
    exact abs_add_lt_max_abs_iff _ _
  refine ⟨key, ?_, fun fuel ticks => ?_⟩
  · rw [mul_neg_iff]
    constructor
    · rintro (⟨h1, h2⟩ | ⟨h1, h2⟩)
      · exact ⟨h1.ne', h2.ne, fun h => absurd h (not_lt.mpr h1.le), fun h => absurd h (not_lt.mpr h2.le)⟩
      · exact ⟨h1.ne, h2.ne', fun _ => h2, fun _ => h1⟩
    · rintro ⟨h1, h2, h3⟩
      rcases lt_or_gt_of_ne h1 with h | h
      · exact Or.inr ⟨h, h3.mp h⟩
      · refine Or.inl ⟨h, ?_⟩
        rcases lt_or_gt_of_ne h2 with h' | h'
        · exact h'
        · exact absurd (h3.mpr h') (not_lt.mpr h.le)
  · unfold Axis.autoLabels
    by_cases h : a._min * a._max < 0
    · rw [if_pos h, if_pos (key.mpr h)]
    · rw [if_neg h, if_neg (fun h' => h (key.mp h'))]

theorem autoLabels_symmetric_iff_witness :
    (|(sampleAxis AxisType.linear (-10 : ℚ) (-10) 30 30)._min +
        (sampleAxis AxisType.linear (-10 : ℚ) (-10) 30 30)._max| <
      std_max |(sampleAxis AxisType.linear (-10 : ℚ) (-10) 30 30)._min|
        |(sampleAxis AxisType.linear (-10 : ℚ) (-10) 30 30)._max|) ∧
    ¬ (|(sampleAxis AxisType.linear (0 : ℚ) 0 100 100)._min +
        (sampleAxis AxisType.linear (0 : ℚ) 0 100 100)._max| <
      std_max |(sampleAxis AxisType.linear (0 : ℚ) 0 100 100)._min|
        |(sampleAxis AxisType.linear (0 : ℚ) 0 100 100)._max|) :=
  ⟨(autoLabels_symmetric_iff (sampleAxis AxisType.linear (-10 : ℚ) (-10) 30 30)).1.mpr
      (by norm_num [sampleAxis]),
    fun h => absurd ((autoLabels_symmetric_iff
      (sampleAxis AxisType.linear (0 : ℚ) 0 100 100)).1.mp h) (by norm_num [sampleAxis])⟩

/-- Linear round trip without restriction on the value. -/
theorem reverse_convert_linear (a : Axis F) (log : F → F) (pow : F → F → F) (M_E v L : F)
    (ht : a._type = AxisType.linear) (hmm : a._min < a._max) (hL : L ≠ 0) :
    a.convert log v L = Except.ok (L * (v - a._min) / (a._max - a._min)) ∧
      a.reverse log pow M_E (L * (v - a._min) / (a._max - a._min)) L = v := by
  have hne : a._type ≠ AxisType.logarithmic := by rw [ht]; decide
  have hd : a._max - a._min ≠ 0 := (sub_pos.mpr hmm).ne'
  constructor
  · unfold Axis.convert
    rw [if_neg hne]
  · unfold Axis.reverse
    rw [if_neg hne]
    field_simp

/-- Logarithmic round trip for every positive value. -/
theorem reverse_convert_logarithmic (a : Axis ℝ) (v L : ℝ)
    (ht : a._type = AxisType.logarithmic) (h0 : 0 < a._min) (hmm : a._min < a._max)
    (hL : L ≠ 0) (hv : 0 < v) :
    a.convert Real.log v L =
        Except.ok (L * (Real.log v - Real.log a._min) / Real.log (a._max / a._min)) ∧
      a.reverse Real.log Real.rpow (Real.exp 1)
        (L * (Real.log v - Real.log a._min) / Real.log (a._max / a._min)) L = v := by
  have hD : Real.log (a._max / a._min) ≠ 0 :=
    (Real.log_pos ((one_lt_div h0).mpr hmm)).ne'
  refine ⟨convert_logarithmic_of_ne_zero a Real.log v L ht hv.ne', ?_⟩
  unfold Axis.reverse
  rw [if_pos ht, Real.rpow_eq_pow, Real.exp_one_rpow]
  have he : Real.log a._min + L * (Real.log v - Real.log a._min) /
      Real.log (a._max / a._min) * Real.log (a._max / a._min) / L = Real.log v := by
    field_simp
  rw [he, Real.exp_log hv]

/-- C19: for a length `L > 0` and `v1 < v2`, `convert` returns a smaller coordinate for
`v1` than for `v2`: on a linear axis with `min < max`, and on a logarithmic axis with
`0 < min < max` when `0 < v1`. -/
theorem convert_strictMono (a : Axis ℝ) (L v1 v2 : ℝ) (hL : 0 < L) (hv : v1 < v2) :
    (a._type = AxisType.linear → a._min < a._max →
      ∃ c1 c2, a.convert Real.log v1 L = Except.ok c1 ∧
        a.convert Real.log v2 L = Except.ok c2 ∧ c1 < c2) ∧
    (a._type = AxisType.logarithmic → 0 < a._min → a._min < a._max → 0 < v1 →
      ∃ c1 c2, a.convert Real.log v1 L = Except.ok c1 ∧
        a.convert Real.log v2 L = Except.ok c2 ∧ c1 < c2) := by
  constructor
  · intro ht hmm
    refine ⟨_, _, (reverse_convert_linear a Real.log Real.rpow 1 v1 L ht hmm hL.ne').1,
      (reverse_convert_linear a Real.log Real.rpow 1 v2 L ht hmm hL.ne').1, ?_⟩
    exact div_lt_div_of_pos_right (mul_lt_mul_of_pos_left (sub_lt_sub_right hv _) hL)
      (sub_pos.mpr hmm)
  · intro ht h0 hmm hv1
    have hD : 0 < Real.log (a._max / a._min) := Real.log_pos ((one_lt_div h0).mpr hmm)
    refine ⟨_, _, convert_logarithmic_of_ne_zero a Real.log v1 L ht hv1.ne',
      convert_logarithmic_of_ne_zero a Real.log v2 L ht (hv1.trans hv).ne', ?_⟩
    exact div_lt_div_of_pos_right (mul_lt_mul_of_pos_left
      (sub_lt_sub_right (Real.log_lt_log hv1 hv) _) hL) hD

theorem convert_strictMono_witness :
    ∃ c1 c2, (sampleAxis AxisType.logarithmic (20 : ℝ) 20 20000 20000).convert Real.log 200
        1000 = Except.ok c1 ∧
      (sampleAxis AxisType.logarithmic (20 : ℝ) 20 20000 20000).convert Real.log 2000 1000 =
        Except.ok c2 ∧ c1 < c2 :=
  (convert_strictMono (sampleAxis AxisType.logarithmic (20 : ℝ) 20 20000 20000) 1000 200 2000
    (by norm_num) (by norm_num)).2 rfl (by norm_num [sampleAxis]) (by norm_num [sampleAxis])
    (by norm_num)

/-! ## The loop body of `paint` -/

/-- A label whose conversion throws leaves the state of `paint` as it is. -/
theorem paintStep_error [FloorRing F] (a : Axis F) (log : F → F) (st : PaintState F) (l : F)
    (e : Exception) (hc : a.convert log l a.size = Except.error e) :
    a.paintStep log st l = st := by
  unfold Axis.paintStep
  rw [hc]

/-- A label with an end of its line outside `limit` leaves the state of `paint` as it is. -/
theorem paintStep_culled [FloorRing F] (a : Axis F) (log : F → F) (st : PaintState F)
    (l t : F) (hc : a.convert log l a.size = Except.ok t)
    (hout : ¬ (a.limit.contains (a.p1 t) = true ∧ a.limit.contains (a.p2 t) = true)) :
    a.paintStep log st l = st := by
  unfold Axis.paintStep
  rw [hc]
  dsimp only
  rw [if_pos]
  rcases not_and_or.mp hout with h | h
  · simp [h]
  · simp [h]

/-- A label inside `limit` whose rectangle is free gets a line and a text. -/
theorem paintStep_drawn [FloorRing F] (a : Axis F) (log : F → F) (st : PaintState F)
    (l t : F) (hc : a.convert log l a.size = Except.ok t)
    (h1 : a.limit.contains (a.p1 t) = true) (h2 : a.limit.contains (a.p2 t) = true)
    (hfree : (st.lastTextRect.isEmpty ||
      !(st.lastTextRect.intersects (a.moveTextRect st.textRect (a.p1 t)))) = true) :
    a.paintStep log st l =
      { textRect := a.moveTextRect st.textRect (a.p1 t),
        lastTextRect := a.moveTextRect st.textRect (a.p1 t),
        out := st.out ++ [DrawCommand.drawLine (a.p1 t) (a.p2 t)] ++
          [DrawCommand.drawText (a.moveTextRect st.textRect (a.p1 t)) (l * a._scale)] } := by
  unfold Axis.paintStep
  rw [hc]
  dsimp only
  rw [if_neg (by simp [h1, h2]), if_pos hfree]

/-- A label inside `limit` whose rectangle meets the last drawn one gets a line only. -/
theorem paintStep_suppressed [FloorRing F] (a : Axis F) (log : F → F) (st : PaintState F)
    (l t : F) (hc : a.convert log l a.size = Except.ok t)
    (h1 : a.limit.contains (a.p1 t) = true) (h2 : a.limit.contains (a.p2 t) = true)
    (hmeet : ¬ (st.lastTextRect.isEmpty ||
      !(st.lastTextRect.intersects (a.moveTextRect st.textRect (a.p1 t)))) = true) :
    a.paintStep log st l =
      { textRect := a.moveTextRect st.textRect (a.p1 t),
        lastTextRect := st.lastTextRect,
        out := st.out ++ [DrawCommand.drawLine (a.p1 t) (a.p2 t)] } := by
  unfold Axis.paintStep
  rw [hc]
  dsimp only
  rw [if_neg (by simp [h1, h2]), if_neg hmeet]

/-- The four ways in which the loop body of `paint` can run. -/
theorem paintStep_cases [FloorRing F] (a : Axis F) (log : F → F) (st : PaintState F) (l : F) :
    a.paintStep log st l = st ∨
    ∃ t, a.convert log l a.size = Except.ok t ∧ a.limit.contains (a.p1 t) = true ∧
      a.limit.contains (a.p2 t) = true ∧
      (((st.lastTextRect.isEmpty ||
          !(st.lastTextRect.intersects (a.moveTextRect st.textRect (a.p1 t)))) = true ∧
        a.paintStep log st l =
          { textRect := a.moveTextRect st.textRect (a.p1 t),
            lastTextRect := a.moveTextRect st.textRect (a.p1 t),
            out := st.out ++ [DrawCommand.drawLine (a.p1 t) (a.p2 t)] ++
              [DrawCommand.drawText (a.moveTextRect st.textRect (a.p1 t)) (l * a._scale)] }) ∨
       (¬ (st.lastTextRect.isEmpty ||
          !(st.lastTextRect.intersects (a.moveTextRect st.textRect (a.p1 t)))) = true ∧
        a.paintStep log st l =
          { textRect := a.moveTextRect st.textRect (a.p1 t),
            lastTextRect := st.lastTextRect,
            out := st.out ++ [DrawCommand.drawLine (a.p1 t) (a.p2 t)] })) := by
  cases hc : a.convert log l a.size with
  | error e => exact Or.inl (paintStep_error a log st l e hc)
  | ok t =>
    by_cases hin : a.limit.contains (a.p1 t) = true ∧ a.limit.contains (a.p2 t) = true
    · right
      refine ⟨t, rfl, hin.1, hin.2, ?_⟩
      by_cases hfree : (st.lastTextRect.isEmpty ||
          !(st.lastTextRect.intersects (a.moveTextRect st.textRect (a.p1 t)))) = true
      · exact Or.inl ⟨hfree, paintStep_drawn a log st l t hc hin.1 hin.2 hfree⟩
      · exact Or.inr ⟨hfree, paintStep_suppressed a log st l t hc hin.1 hin.2 hfree⟩
    · exact Or.inl (paintStep_culled a log st l t hc hin)

/-- A label text that the loop body of `paint` adds for the label `l` shows `l * scale`. -/
theorem paintStep_text_value [FloorRing F] (a : Axis F) (log : F → F) (st : PaintState F)
    (l : F) (rect : QRect) (v : F)
    (h : DrawCommand.drawText rect v ∈ (a.paintStep log st l).out) :
    DrawCommand.drawText rect v ∈ st.out ∨ v = l * a._scale := by
  rcases paintStep_cases a log st l with hs | ⟨t, -, -, -, ⟨-, hs⟩ | ⟨-, hs⟩⟩
  · rw [hs] at h
    exact Or.inl h
  · rw [hs] at h
    simp only [List.mem_append, List.mem_singleton, DrawCommand.drawText.injEq, reduceCtorEq,
      or_false] at h
    rcases h with h | ⟨-, h⟩
    · exact Or.inl h
    · exact Or.inr h
  · rw [hs] at h
    simp only [List.mem_append, List.mem_singleton, reduceCtorEq, or_false] at h
    exact Or.inl h

/-- C20: for a tick value `l` that converts (linear axis with `min < max`, or logarithmic
axis with `0 < min < max` and `l > 0`) and a positive axis length, `coordToValue` applied to
the untruncated screen coordinate of the tick's grid line (`padding.left + t` on a
horizontal axis, `height - padding.bottom - t` on a vertical one, `t` the converted
coordinate) returns `l * scale`; `paint` puts the line at the truncation of that coordinate
and writes `l * scale` as the label. -/
theorem coordToValue_at_tick (a : Axis ℝ) (l : ℝ) (hsize : 0 < a.size)
    (hcase : (a._type = AxisType.linear ∧ a._min < a._max) ∨
      (a._type = AxisType.logarithmic ∧ 0 < a._min ∧ a._min < a._max ∧ 0 < l)) :
    ∃ t, a.convert Real.log l a.size = Except.ok t ∧
      a.coordToValue Real.log Real.rpow (Real.exp 1)
        (if a._direction = AxisDirection.horizontal then a.padding.left + t
          else a.height - a.padding.bottom - t) = l * a._scale ∧
      (a._direction = AxisDirection.horizontal → (a.p1 t).x = toInt (a.padding.left + t)) ∧
      (a._direction ≠ AxisDirection.horizontal →
        (a.p1 t).y = toInt (a.height - a.padding.bottom - t)) ∧
      (∀ (st : PaintState ℝ) (rect : QRect) (v : ℝ),
        DrawCommand.drawText rect v ∈ (a.paintStep Real.log st l).out →
          DrawCommand.drawText rect v ∈ st.out ∨ v = l * a._scale) := by
  obtain ⟨t, hc, hr⟩ : ∃ t, a.convert Real.log l a.size = Except.ok t ∧
      a.reverse Real.log Real.rpow (Real.exp 1) t a.size = l := by
    rcases hcase with ⟨ht, hmm⟩ | ⟨ht, h0, hmm, hl⟩
    · exact ⟨_, reverse_convert_linear a Real.log Real.rpow (Real.exp 1) l a.size ht hmm
        hsize.ne'⟩
    · exact ⟨_, reverse_convert_logarithmic a l a.size ht h0 hmm hsize.ne' hl⟩
  refine ⟨t, hc, ?_, fun hd => ?_, fun hd => ?_,
    fun st rect v h => paintStep_text_value a Real.log st l rect v h⟩
  · unfold Axis.coordToValue
    dsimp only
    by_cases hd : a._direction = AxisDirection.horizontal
    · rw [if_pos hd, if_pos hd, add_sub_cancel_left, hr]
    · rw [if_neg hd, if_neg hd]
      have e : a.height - (a.height - a.padding.bottom - t) - a.padding.bottom = t := by ring
      rw [e, hr]
  · unfold Axis.p1
    rw [if_pos hd, add_comm]
  · unfold Axis.p1
    dsimp only
    rw [if_neg hd]

theorem coordToValue_at_tick_witness :
    ∃ t, (sampleAxis AxisType.logarithmic (20 : ℝ) 20 20000 20000).convert Real.log 2000
        (sampleAxis AxisType.logarithmic (20 : ℝ) 20 20000 20000).size = Except.ok t ∧
      (sampleAxis AxisType.logarithmic (20 : ℝ) 20 20000 20000).coordToValue Real.log Real.rpow
        (Real.exp 1) (50 + t) = 2000 * 1 := by
  obtain ⟨t, h1, h2, -⟩ := coordToValue_at_tick
    (sampleAxis AxisType.logarithmic (20 : ℝ) 20 20000 20000) 2000
    (by norm_num [Axis.size, Axis.pwidth, sampleAxis])
    (Or.inr ⟨rfl, by norm_num [sampleAxis], by norm_num [sampleAxis], by norm_num⟩)
  exact ⟨t, h1, h2⟩


/-! ## The render pass -/

theorem drawnRects_append {G : Type} (xs ys : List (DrawCommand G)) :
    drawnRects (xs ++ ys) = drawnRects xs ++ drawnRects ys := by
  induction xs with
  | nil => rfl
  | cons c cs ih =>
    cases c with
    | drawLine p q => simpa [drawnRects] using ih
    | drawText r v => simpa [drawnRects] using ih

/-- Placed at the end `p1` of a line, a 50 by 20 `textRect` becomes the label rectangle. -/
theorem moveTextRect_eq_labelRect {G : Type} (a : Axis G) (r : QRect) (p : QPoint)
    (hx : r.x2 = r.x1 + 49) (hy : r.y2 = r.y1 + 19) :
    a.moveTextRect r p = a.labelRect p := by
  have hw : r.width = 50 := by unfold QRect.width; omega
  have hh : r.height = 20 := by unfold QRect.height; omega
  unfold Axis.moveTextRect Axis.labelRect QRect.moveTo QRect.ofSize
  rw [hw, hh, hx, hy]
  have e1 : Int.tdiv 50 2 = 25 := by decide
  have e2 : Int.tdiv 20 2 = 10 := by decide
  rw [e1, e2]
  by_cases hd : a._direction = AxisDirection.horizontal
  · simp only [if_pos hd, QRect.mk.injEq, true_and]
    omega
  · simp only [if_neg hd, QRect.mk.injEq, true_and]
    omega

theorem labelRect_size {G : Type} (a : Axis G) (p : QPoint) :
    (a.labelRect p).x2 = (a.labelRect p).x1 + 49 ∧
      (a.labelRect p).y2 = (a.labelRect p).y1 + 19 := by
  unfold Axis.labelRect QRect.ofSize
  constructor <;> dsimp only <;> omega

theorem isEmpty_of_size (r : QRect) (hx : r.x2 = r.x1 + 49) (hy : r.y2 = r.y1 + 19) :
    r.isEmpty = false := by
  unfold QRect.isEmpty
  simp only [Bool.or_eq_false_iff, decide_eq_false_iff_not, not_lt, gt_iff_lt]
  omega

theorem paintState_invariant_init [FloorRing F] (a : Axis F) :
    (PaintState.init : PaintState F).invariant a := by
  refine ⟨⟨rfl, rfl⟩, Or.inl ⟨rfl, rfl⟩, List.chain'_nil, ?_⟩
  intro p q h
  simp [PaintState.init] at h

/-- The loop body of `paint` keeps the invariant. -/
theorem paintState_invariant_step [FloorRing F] (a : Axis F) (log : F → F)
    (st : PaintState F) (l : F) (h : st.invariant a) : (a.paintStep log st l).invariant a := by
  obtain ⟨⟨hx, hy⟩, hlast, hchain, hlines⟩ := h
  rcases paintStep_cases a log st l with hs | ⟨t, -, h1, h2, ⟨hfree, hs⟩ | ⟨-, hs⟩⟩
  · rw [hs]
    exact ⟨⟨hx, hy⟩, hlast, hchain, hlines⟩
  · rw [hs, moveTextRect_eq_labelRect a _ _ hx hy]
    rw [moveTextRect_eq_labelRect a _ _ hx hy] at hfree
    have hsz := labelRect_size a (a.p1 t)
    have hdr : drawnRects (st.out ++ [DrawCommand.drawLine (a.p1 t) (a.p2 t)] ++
        [DrawCommand.drawText (a.labelRect (a.p1 t)) (l * a._scale)]) =
        drawnRects st.out ++ [a.labelRect (a.p1 t)] := by
      simp [drawnRects_append, drawnRects]
    refine ⟨hsz, Or.inr ⟨?_, hsz⟩, ?_, ?_⟩
    · unfold lastDrawnRect
      rw [hdr, List.getLast?_concat]
    · dsimp only
      rw [hdr, List.chain'_append]
      refine ⟨hchain, List.chain'_singleton _, ?_⟩
      intro r hr s hs'
      simp only [List.head?_cons, Option.mem_def, Option.some.injEq] at hs'
      subst hs'
      rcases hlast with ⟨hnone, -⟩ | ⟨hsome, hlx, hly⟩
      · unfold lastDrawnRect at hnone
        rw [Option.mem_def, hnone] at hr
        cases hr
      · unfold lastDrawnRect at hsome
        rw [Option.mem_def, hsome, Option.some.injEq] at hr
        subst hr
        rw [isEmpty_of_size _ hlx hly] at hfree
        simpa using hfree
    · intro p q hpq
      simp only [List.mem_append, List.mem_singleton, DrawCommand.drawLine.injEq, reduceCtorEq,
        or_false] at hpq
      rcases hpq with hpq | ⟨rfl, rfl⟩
      · exact hlines p q hpq
      · exact ⟨h1, h2⟩
  · rw [hs, moveTextRect_eq_labelRect a _ _ hx hy]
    have hsz := labelRect_size a (a.p1 t)
    have hdr : drawnRects (st.out ++ [DrawCommand.drawLine (a.p1 t) (a.p2 t)]) =
        drawnRects st.out := by
      simp [drawnRects_append, drawnRects]
    refine ⟨hsz, ?_, ?_, ?_⟩
    · unfold lastDrawnRect
      dsimp only
      rw [hdr]
      exact hlast
    · dsimp only
      rw [hdr]
      exact hchain
    · intro p q hpq
      simp only [List.mem_append, List.mem_singleton, DrawCommand.drawLine.injEq] at hpq
      rcases hpq with hpq | ⟨rfl, rfl⟩
      · exact hlines p q hpq
      · exact ⟨h1, h2⟩

theorem foldl_paintStep_invariant [FloorRing F] (a : Axis F) (log : F → F) (labels : List F) :
    ∀ st : PaintState F, st.invariant a → (labels.foldl (a.paintStep log) st).invariant a := by
  induction labels with
  | nil => exact fun st h => h
  | cons l ls ih => exact fun st h => ih _ (paintState_invariant_step a log st l h)

/-- Every state that the loop of `paint` reaches satisfies the invariant. -/
theorem paintLoop_invariant [FloorRing F] (a : Axis F) (log : F → F) (labels : List F) :
    (a.paintLoop log labels).invariant a :=
  foldl_paintStep_invariant a log labels _ (paintState_invariant_init a)

theorem paintLoop_append_singleton [FloorRing F] (a : Axis F) (log : F → F) (labels : List F)
    (l : F) : a.paintLoop log (labels ++ [l]) = a.paintStep log (a.paintLoop log labels) l := by
  unfold Axis.paintLoop
  rw [List.foldl_append]
  rfl

/-- Labels for which the loop body does nothing can be dropped from the list. -/
theorem foldl_paintStep_filter [FloorRing F] (a : Axis F) (log : F → F) (keep : F → Bool)
    (hskip : ∀ (st : PaintState F) (l : F), keep l = false → a.paintStep log st l = st)
    (labels : List F) :
    ∀ st : PaintState F, labels.foldl (a.paintStep log) st =
      (labels.filter keep).foldl (a.paintStep log) st := by
  induction labels with
  | nil => exact fun st => rfl
  | cons l ls ih =>
    intro st
    cases hk : keep l with
    | false => rw [List.filter_cons_of_neg (by simp [hk]), List.foldl_cons, hskip st l hk, ih]
    | true => rw [List.filter_cons_of_pos hk, List.foldl_cons, List.foldl_cons, ih]

/-- C13: on a logarithmic axis, for every label list, `paint` issues the same draw commands
as for the list with the labels equal to `0` (those whose conversion throws) removed. -/
theorem paint_skips_zero [FloorRing F] (a : Axis F) (log : F → F)
    (h : a._type = AxisType.logarithmic) :
    a.paint log =
      ({ a with _labels := a._labels.filter (fun l => decide (l ≠ 0)) } : Axis F).paint log := by
  have hskip : ∀ (st : PaintState F) (l : F), decide (l ≠ 0) = false →
      a.paintStep log st l = st := by
    intro st l hl
    have hl0 : l = 0 := by simpa using hl
    subst hl0
    refine paintStep_error a log st 0 Exception.invalid_argument ?_
    unfold Axis.convert
    rw [if_pos h, if_pos rfl]
  unfold Axis.paint Axis.paintLoop
  rw [foldl_paintStep_filter a log (fun l => decide (l ≠ 0)) hskip a._labels PaintState.init]
  rfl

theorem paint_skips_zero_witness :
    ({ sampleAxis AxisType.logarithmic (20 : ℚ) 20 20000 20000 with
        _labels := [0, 200, 0, 2000] } : Axis ℚ).paint (fun x => x) =
      ({ sampleAxis AxisType.logarithmic (20 : ℚ) 20 20000 20000 with
        _labels := [200, 2000] } : Axis ℚ).paint (fun x => x) := by
  have h := paint_skips_zero ({ sampleAxis AxisType.logarithmic (20 : ℚ) 20 20000 20000 with
    _labels := [0, 200, 0, 2000] } : Axis ℚ) (fun x => x) rfl
  rw [h]
  decide!

/-- C14: in the state reached after the labels `labels`, a label `l` that converts and
passes the culling gets its grid line; its text is drawn if and only if no label has been
drawn before in the pass or its rectangle does not intersect that of the most recently
drawn label; when drawn, its rectangle becomes `lastTextRect`, otherwise `lastTextRect`
stays. -/
theorem paint_greedy [FloorRing F] (a : Axis F) (log : F → F) (labels : List F) (l t : F)
    (hc : a.convert log l a.size = Except.ok t)
    (h1 : a.limit.contains (a.p1 t) = true) (h2 : a.limit.contains (a.p2 t) = true) :
    ((lastDrawnRect (a.paintLoop log labels).out = none ∨
        ∃ r, lastDrawnRect (a.paintLoop log labels).out = some r ∧
          r.intersects (a.labelRect (a.p1 t)) = false) →
      (a.paintLoop log (labels ++ [l])).out = (a.paintLoop log labels).out ++
          [DrawCommand.drawLine (a.p1 t) (a.p2 t),
            DrawCommand.drawText (a.labelRect (a.p1 t)) (l * a._scale)] ∧
        (a.paintLoop log (labels ++ [l])).lastTextRect = a.labelRect (a.p1 t)) ∧
    (¬ (lastDrawnRect (a.paintLoop log labels).out = none ∨
        ∃ r, lastDrawnRect (a.paintLoop log labels).out = some r ∧
          r.intersects (a.labelRect (a.p1 t)) = false) →
      (a.paintLoop log (labels ++ [l])).out = (a.paintLoop log labels).out ++
          [DrawCommand.drawLine (a.p1 t) (a.p2 t)] ∧
        (a.paintLoop log (labels ++ [l])).lastTextRect =
          (a.paintLoop log labels).lastTextRect) := by
  obtain ⟨⟨hx, hy⟩, hlast, -, -⟩ := paintLoop_invariant a log labels
  have hmove := moveTextRect_eq_labelRect a _ (a.p1 t) hx hy
  rw [paintLoop_append_singleton]
  constructor
  · intro hdrawn
    have hfree : ((a.paintLoop log labels).lastTextRect.isEmpty ||
        !((a.paintLoop log labels).lastTextRect.intersects
          (a.moveTextRect (a.paintLoop log labels).textRect (a.p1 t)))) = true := by
      rw [hmove]
      rcases hlast with ⟨-, hnull⟩ | ⟨hsome, -, -⟩
      · rw [hnull]
        rfl
      · rcases hdrawn with hnone | ⟨r, hr, hri⟩
        · rw [hnone] at hsome
          cases hsome
        · rw [hsome, Option.some.injEq] at hr
          rw [hr, hri]
          simp
    rw [paintStep_drawn a log _ l t hc h1 h2 hfree, hmove]
    exact ⟨by simp, rfl⟩
  · intro hnot
    have hmeet : ¬ ((a.paintLoop log labels).lastTextRect.isEmpty ||
        !((a.paintLoop log labels).lastTextRect.intersects
          (a.moveTextRect (a.paintLoop log labels).textRect (a.p1 t)))) = true := by
      rw [hmove]
      rcases hlast with ⟨hnone, -⟩ | ⟨hsome, hlx, hly⟩
      · exact absurd (Or.inl hnone) hnot
      · rw [isEmpty_of_size _ hlx hly]
        intro hcon
        refine hnot (Or.inr ⟨_, hsome, ?_⟩)
        simpa using hcon
    rw [paintStep_suppressed a log _ l t hc h1 h2 hmeet]
    exact ⟨rfl, rfl⟩

/-- On a linear axis every value is converted by the linear formula. -/
theorem convert_linear (a : Axis F) (log : F → F) (v L : F) (ht : a._type = AxisType.linear) :
    a.convert log v L = Except.ok (L * (v - a._min) / (a._max - a._min)) := by
  unfold Axis.convert
  rw [if_neg (by rw [ht]; decide)]

theorem paint_greedy_witness :
    ((sampleAxis AxisType.linear (0 : ℚ) 0 740 740).paintLoop (fun x => x) ([10] ++ [300])).out =
      ((sampleAxis AxisType.linear (0 : ℚ) 0 740 740).paintLoop (fun x => x) [10]).out ++
        [DrawCommand.drawLine
            ((sampleAxis AxisType.linear (0 : ℚ) 0 740 740).p1 300)
            ((sampleAxis AxisType.linear (0 : ℚ) 0 740 740).p2 300),
          DrawCommand.drawText
            ((sampleAxis AxisType.linear (0 : ℚ) 0 740 740).labelRect
              ((sampleAxis AxisType.linear (0 : ℚ) 0 740 740).p1 300))
            (300 * (sampleAxis AxisType.linear (0 : ℚ) 0 740 740)._scale)] :=
  ((paint_greedy (sampleAxis AxisType.linear (0 : ℚ) 0 740 740) (fun x => x) [10] 300 300
    ((convert_linear _ _ _ _ rfl).trans (by norm_num [sampleAxis, Axis.size, Axis.pwidth])) (by decide!) (by decide!)).1
    (Or.inr ⟨⟨35, 580, 84, 599⟩, by decide!, by decide!⟩)).1

/-- The commands issued so far stay when the loop of `paint` goes on. -/
theorem foldl_paintStep_mem [FloorRing F] (a : Axis F) (log : F → F) (c : DrawCommand F)
    (labels : List F) :
    ∀ st : PaintState F, c ∈ st.out → c ∈ (labels.foldl (a.paintStep log) st).out := by
  induction labels with
  | nil => exact fun st h => h
  | cons l ls ih =>
    intro st h
    refine ih _ ?_
    rcases paintStep_cases a log st l with hs | ⟨t, -, -, -, ⟨-, hs⟩ | ⟨-, hs⟩⟩
    · rw [hs]
      exact h
    · rw [hs]
      exact List.mem_append_left _ (List.mem_append_left _ h)
    · rw [hs]
      exact List.mem_append_left _ h

/-- A label that converts and passes the culling gets its grid line, wherever it stands
in the list. -/
theorem foldl_paintStep_line [FloorRing F] (a : Axis F) (log : F → F) (l t : F)
    (hc : a.convert log l a.size = Except.ok t)
    (h1 : a.limit.contains (a.p1 t) = true) (h2 : a.limit.contains (a.p2 t) = true)
    (labels : List F) (hl : l ∈ labels) :
    ∀ st : PaintState F,
      DrawCommand.drawLine (a.p1 t) (a.p2 t) ∈ (labels.foldl (a.paintStep log) st).out := by
  induction labels with
  | nil => cases hl
  | cons l' ls ih =>
    intro st
    rcases List.mem_cons.mp hl with rfl | hl'
    · refine foldl_paintStep_mem a log _ ls _ ?_
      by_cases hfree : (st.lastTextRect.isEmpty ||
          !(st.lastTextRect.intersects (a.moveTextRect st.textRect (a.p1 t)))) = true
      · rw [paintStep_drawn a log st l t hc h1 h2 hfree]
        simp
      · rw [paintStep_suppressed a log st l t hc h1 h2 hfree]
        simp
    · exact ih hl' _

/-- C15 (as amended): for every label list, two labels drawn one right after the other
never have intersecting rectangles, and every label that converts and passes the culling
gets its grid line, drawn or not; in particular, when the list consists of two labels that
both pass the culling and whose rectangles intersect, the text of the second is omitted
and its grid line is issued. -/
theorem paint_consecutive_labels_disjoint [FloorRing F] (a : Axis F) (log : F → F) :
    List.Chain' (fun r s : QRect => r.intersects s = false) (drawnRects (a.paint log)) ∧
    (∀ l t, l ∈ a._labels → a.convert log l a.size = Except.ok t →
      a.limit.contains (a.p1 t) = true → a.limit.contains (a.p2 t) = true →
      DrawCommand.drawLine (a.p1 t) (a.p2 t) ∈ a.paint log) ∧
    (∀ l1 l2 t1 t2, a._labels = [l1, l2] →
      a.convert log l1 a.size = Except.ok t1 → a.convert log l2 a.size = Except.ok t2 →
      a.limit.contains (a.p1 t1) = true → a.limit.contains (a.p2 t1) = true →
      a.limit.contains (a.p1 t2) = true → a.limit.contains (a.p2 t2) = true →
      (a.labelRect (a.p1 t1)).intersects (a.labelRect (a.p1 t2)) = true →
      a.paint log =
        [DrawCommand.drawLine (a.p1 t1) (a.p2 t1),
          DrawCommand.drawText (a.labelRect (a.p1 t1)) (l1 * a._scale),
          DrawCommand.drawLine (a.p1 t2) (a.p2 t2)]) := by
  refine ⟨(paintLoop_invariant a log a._labels).2.2.1, ?_, ?_⟩
  · intro l t hl hc h1 h2
    exact foldl_paintStep_line a log l t hc h1 h2 a._labels hl _
  · intro l1 l2 t1 t2 hls hc1 hc2 h11 h12 h21 h22 hint
    have hmove : ∀ p, a.moveTextRect (QRect.ofSize 0 0 50 20) p = a.labelRect p :=
      fun p => moveTextRect_eq_labelRect a _ p rfl rfl
    have hsz := labelRect_size a (a.p1 t1)
    unfold Axis.paint Axis.paintLoop
    rw [hls, List.foldl_cons, List.foldl_cons, List.foldl_nil,
      paintStep_drawn a log PaintState.init l1 t1 hc1 h11 h12 rfl,
      paintStep_suppressed a log _ l2 t2 hc2 h21 h22 ?_]
    · simp only [PaintState.init, hmove, List.nil_append, List.cons_append]
    · simp only [PaintState.init, hmove, moveTextRect_eq_labelRect a _ _ hsz.1 hsz.2, hint,
        isEmpty_of_size _ hsz.1 hsz.2]
      simp

theorem paint_consecutive_labels_disjoint_witness :
    ({ sampleAxis AxisType.linear (0 : ℚ) 0 740 740 with _labels := [10, 20] } : Axis ℚ).paint
        (fun x => x) =
      [DrawCommand.drawLine ⟨60, 580⟩ ⟨60, 10⟩, DrawCommand.drawText ⟨35, 580, 84, 599⟩ 10,
        DrawCommand.drawLine ⟨70, 580⟩ ⟨70, 10⟩] := by
  have h := (paint_consecutive_labels_disjoint
    ({ sampleAxis AxisType.linear (0 : ℚ) 0 740 740 with _labels := [10, 20] } : Axis ℚ)
    (fun x => x)).2.2 10 20 10 20 rfl
      ((convert_linear _ _ _ _ rfl).trans (by norm_num [sampleAxis, Axis.size, Axis.pwidth]))
      ((convert_linear _ _ _ _ rfl).trans (by norm_num [sampleAxis, Axis.size, Axis.pwidth]))
      (by decide!) (by decide!) (by decide!) (by decide!) (by decide!)
  rw [h]
  decide!

/-- C15 (counterexample): on a horizontal linear axis from 0 to 740 with the labels
`[10, 300, 20]`, all three pass the culling and the rectangles of the first and the third
intersect, yet `paint` draws the text of all three: the third is compared with the second
only. -/
theorem paint_overlap_counterexample :
    ({ sampleAxis AxisType.linear (0 : ℚ) 0 740 740 with _labels := [10, 300, 20] } :
        Axis ℚ).paint (fun x => x) =
      [DrawCommand.drawLine ⟨60, 580⟩ ⟨60, 10⟩, DrawCommand.drawText ⟨35, 580, 84, 599⟩ 10,
        DrawCommand.drawLine ⟨350, 580⟩ ⟨350, 10⟩,
        DrawCommand.drawText ⟨325, 580, 374, 599⟩ 300,
        DrawCommand.drawLine ⟨70, 580⟩ ⟨70, 10⟩, DrawCommand.drawText ⟨45, 580, 94, 599⟩ 20] ∧
    QRect.intersects ⟨35, 580, 84, 599⟩ ⟨45, 580, 94, 599⟩ = true := by
  constructor <;> decide!


/-! ## Culling -/

theorem toInt_le [FloorRing F] (x : F) (m : Int) (h : x ≤ (m : F)) : toInt x ≤ m := by
  unfold toInt
  split_ifs
  · exact Int.cast_le.mp ((Int.floor_le x).trans h)
  · exact Int.ceil_le.mpr h

theorem le_toInt [FloorRing F] (x : F) (m : Int) (h : (m : F) ≤ x) : m ≤ toInt x := by
  unfold toInt
  split_ifs
  · exact Int.le_floor.mpr h
  · exact Int.cast_le.mp (h.trans (Int.le_ceil x))

theorem toInt_nonneg [FloorRing F] (x : F) (h : 0 ≤ x) : 0 ≤ toInt x :=
  le_toInt x 0 (by simpa using h)

/-- A point left or right of a rectangle of non-negative width is not contained in it. -/
theorem contains_false_of_x (r : QRect) (p : QPoint) (hr : r.x1 - 1 ≤ r.x2)
    (hp : p.x < r.x1 ∨ r.x2 < p.x) : r.contains p = false := by
  unfold QRect.contains
  dsimp only
  split_ifs <;> first | rfl | omega

/-- A point above or below a rectangle of non-negative height is not contained in it. -/
theorem contains_false_of_y (r : QRect) (p : QPoint) (hr : r.y1 - 1 ≤ r.y2)
    (hp : p.y < r.y1 ∨ r.y2 < p.y) : r.contains p = false := by
  unfold QRect.contains
  dsimp only
  split_ifs <;> first | rfl | omega

/-- C16 (as amended): culling acts on the ends of the grid line truncated to integer
pixels. A label with a truncated end outside `limit` gets neither line nor text, and every
line that `paint` draws has both ends in `limit`. A label whose coordinate lies a whole
pixel or more outside (horizontal: `t + padding.left ≤ int(padding.left) - 1` or
`t + padding.left ≥ int(padding.left) + int(size) + 1`; vertical:
`height - padding.bottom - t ≤ int(padding.top) - 1` or
`height - padding.bottom - t ≥ int(padding.top) + int(size) + 1`; `size ≥ 0`) is culled. -/
theorem paint_culling [FloorRing F] (a : Axis F) (log : F → F) :
    (∀ (st : PaintState F) (l t : F), a.convert log l a.size = Except.ok t →
      ¬ (a.limit.contains (a.p1 t) = true ∧ a.limit.contains (a.p2 t) = true) →
      a.paintStep log st l = st) ∧
    (∀ p q, DrawCommand.drawLine p q ∈ a.paint log →
      a.limit.contains p = true ∧ a.limit.contains q = true) ∧
    (∀ (st : PaintState F) (l t : F), a.convert log l a.size = Except.ok t → 0 ≤ a.size →
      a._direction = AxisDirection.horizontal →
      (t + a.padding.left ≤ ((toInt a.padding.left : Int) : F) - 1 ∨
        ((toInt a.padding.left + toInt a.size + 1 : Int) : F) ≤ t + a.padding.left) →
      a.paintStep log st l = st) ∧
    (∀ (st : PaintState F) (l t : F), a.convert log l a.size = Except.ok t → 0 ≤ a.size →
      a._direction = AxisDirection.vertical →
      (a.height - a.padding.bottom - t ≤ ((toInt a.padding.top : Int) : F) - 1 ∨
        ((toInt a.padding.top + toInt a.size + 1 : Int) : F) ≤
          a.height - a.padding.bottom - t) →
      a.paintStep log st l = st) := by
  refine ⟨fun st l t hc hout => paintStep_culled a log st l t hc hout,
    fun p q h => (paintLoop_invariant a log a._labels).2.2.2 p q h, ?_, ?_⟩
  · intro st l t hc hsize hd hfar
    refine paintStep_culled a log st l t hc (fun hin => ?_)
    have hW : 0 ≤ toInt (a.width - a.padding.left - a.padding.right) := by
      refine toInt_nonneg _ ?_
      simpa [Axis.size, hd, Axis.pwidth] using hsize
    have hsz : toInt a.size = toInt (a.width - a.padding.left - a.padding.right) := by
      simp [Axis.size, hd, Axis.pwidth]
    have hp : (a.p1 t).x = toInt (t + a.padding.left) := by
      simp [Axis.p1, hd]
    have hcf : a.limit.contains (a.p1 t) = false := by
      refine contains_false_of_x _ _ ?_ ?_
      · simp only [Axis.limit, QRect.ofSize]
        omega
      · simp only [Axis.limit, QRect.ofSize, hp]
        rcases hfar with h | h
        · left
          have := toInt_le (t + a.padding.left) (toInt a.padding.left - 1) (by push_cast; exact h)
          omega
        · right
          have := le_toInt (t + a.padding.left) _ h
          rw [hsz] at this
          omega
    rw [hcf] at hin
    exact absurd hin.1 (by decide)
  · intro st l t hc hsize hd hfar
    have hdn : a._direction ≠ AxisDirection.horizontal := by rw [hd]; decide
    refine paintStep_culled a log st l t hc (fun hin => ?_)
    have hH : 0 ≤ toInt (a.height - a.padding.top - a.padding.bottom) := by
      refine toInt_nonneg _ ?_
      simpa [Axis.size, hdn, Axis.pheight] using hsize
    have hsz : toInt a.size = toInt (a.height - a.padding.top - a.padding.bottom) := by
      simp [Axis.size, hdn, Axis.pheight]
    have hp : (a.p1 t).y = toInt (a.height - a.padding.bottom - t) := by
      simp [Axis.p1, hdn]
    have hcf : a.limit.contains (a.p1 t) = false := by
      refine contains_false_of_y _ _ ?_ ?_
      · simp only [Axis.limit, QRect.ofSize]
        omega
      · simp only [Axis.limit, QRect.ofSize, hp]
        rcases hfar with h | h
        · left
          have := toInt_le (a.height - a.padding.bottom - t) (toInt a.padding.top - 1)
            (by push_cast; exact h)
          omega
        · right
          have := le_toInt (a.height - a.padding.bottom - t) _ h
          rw [hsz] at this
          omega
    rw [hcf] at hin
    exact absurd hin.1 (by decide)

theorem paint_culling_witness :
    (sampleAxis AxisType.linear (0 : ℚ) 0 740 740).paintStep (fun x => x) PaintState.init 741 =
      PaintState.init :=
  (paint_culling (sampleAxis AxisType.linear (0 : ℚ) 0 740 740) (fun x => x)).2.2.1
    PaintState.init 741 741
    ((convert_linear _ _ _ _ rfl).trans (by norm_num [sampleAxis, Axis.size, Axis.pwidth]))
    (by norm_num [sampleAxis, Axis.size, Axis.pwidth]) rfl
    (Or.inr (by
      have h1 : toInt (sampleAxis AxisType.linear (0 : ℚ) 0 740 740).padding.left = 50 := by
        decide!
      have h2 : toInt (sampleAxis AxisType.linear (0 : ℚ) 0 740 740).size = 740 := by
        decide!
      rw [h1, h2]
      norm_num [sampleAxis]))

/-- C16 (counterexample): on a horizontal linear axis from 0 to 740 with axis length 740,
the label `740.5` has the coordinate `t = 740.5 > 740`, outside the drawable area, and
`paint` draws both its line (at the truncated pixel 790, the right border) and its
text. -/
theorem paint_culling_counterexample :
    (sampleAxis AxisType.linear (0 : ℚ) 0 740 740).size = 740 ∧
    (sampleAxis AxisType.linear (0 : ℚ) 0 740 740).convert (fun x => x) (1481 / 2)
      (sampleAxis AxisType.linear (0 : ℚ) 0 740 740).size = Except.ok (1481 / 2) ∧
    (740 : ℚ) < 1481 / 2 ∧
    ({ sampleAxis AxisType.linear (0 : ℚ) 0 740 740 with _labels := [1481 / 2] } :
        Axis ℚ).paint (fun x => x) =
      [DrawCommand.drawLine ⟨790, 580⟩ ⟨790, 10⟩,
        DrawCommand.drawText ⟨765, 580, 814, 599⟩ (1481 / 2)] := by
  refine ⟨by norm_num [sampleAxis, Axis.size, Axis.pwidth],
    (convert_linear _ _ _ _ rfl).trans (by norm_num [sampleAxis, Axis.size, Axis.pwidth]),
    by norm_num, by decide!⟩

end Fftchart
